import Mathlib

/-!
Shallow embedding of the `epp2json` Go package (file `epp2json.go`) and proofs
of the specification claims about it.

Modelling conventions:
- Go strings are Lean `String`s (lists of characters); byte indices computed by
  `strings.Index` are modelled by splitting at the first occurrence of a
  pattern, which coincides with the byte-level behaviour for the ASCII marker
  tokens used by the package.
- Go slices are Lean lists; a Go runtime panic from an out-of-range slice index
  is modelled by `Option` / the `GoResult.panic` constructor.
- `time.Time` values are modelled by `GoTime` (calendar fields only; the
  package never uses locations or monotonic clocks).
- `float64` values are modelled abstractly by `GoFloat`: the zero value, or a
  value tagged by the numeric literal it was parsed from; no claim depends on
  floating-point arithmetic.
- Go `map`s are association lists (claims only inspect membership).
-/

namespace Epp2Json

/-! ## Characters and whitespace (Go `strings.TrimSpace`) -/

/-- Whitespace as recognised by Go's `unicode.IsSpace` on the Latin-1 range
(`\t`, `\n`, `\v`, `\f`, `\r`, space, NEL, NBSP); the exotic Unicode space
code points are irrelevant to every claim and omitted. -/
def goIsSpace (c : Char) : Bool :=
  c = ' ' || c = '\t' || c = '\n' || c = '\x0b' || c = '\x0c' || c = '\r' ||
    c.val = 0x85 || c.val = 0xa0

/-- `strings.TrimSpace` on the character list. -/
def trimChars (l : List Char) : List Char :=
  ((l.dropWhile goIsSpace).reverse.dropWhile goIsSpace).reverse

/-- Model of Go `strings.TrimSpace`. -/
def trimSpace (s : String) : String :=
  String.mk (trimChars s.data)

/-! ## Splitting at marker tokens (Go `strings.Split` / `strings.Index`) -/

/-- Split a character list at the first occurrence of `pat`: returns the part
before the occurrence and the part after it, or `none` when `pat` does not
occur.  This models `idx := strings.Index(s, pat)` followed by the slicings
`s[:idx]` and `s[idx+len(pat):]`. -/
def splitFirst (pat : List Char) : List Char → Option (List Char × List Char)
  | [] => if pat.isPrefixOf ([] : List Char) then some ([], []) else none
  | c :: cs =>
    if pat.isPrefixOf (c :: cs) then some ([], (c :: cs).drop pat.length)
    else
      match splitFirst pat cs with
      | some (pre, post) => some (c :: pre, post)
      | none => none

/-- Fuel-indexed worker for `splitAll`; the fuel only serves structural
termination and is irrelevant once it dominates the list length. -/
def splitAllFuel (pat : List Char) : Nat → List Char → List (List Char)
  | 0, s => [s]
  | fuel + 1, s =>
    match splitFirst pat s with
    | none => [s]
    | some (pre, post) => pre :: splitAllFuel pat fuel post

/-- Model of Go `strings.Split s pat` for a nonempty pattern: the pieces of
`s` between consecutive occurrences of `pat`. -/
def splitAll (pat : List Char) (s : List Char) : List (List Char) :=
  splitAllFuel pat s.length s

/-- Rejoin pieces with a separator (used to state that splitting loses no
text). -/
def joinWith (sep : List Char) : List (List Char) → List Char
  | [] => []
  | [x] => x
  | x :: y :: rest => x ++ sep ++ joinWith sep (y :: rest)

/-- `pat` occurs as a contiguous sublist of `l`. -/
def Occurs (pat l : List Char) : Prop :=
  ∃ pre post, l = pre ++ pat ++ post

/-- `l` splits as `pre ++ pat ++ post` at the first (leftmost) occurrence of
`pat`. -/
def FirstSplitAt (pat l pre post : List Char) : Prop :=
  l = pre ++ pat ++ post ∧
    ∀ pre' post', l = pre' ++ pat ++ post' → pre.length ≤ pre'.length

/-! ## Dates (Go `time.Time` and `ParseDate`) -/

/-- Calendar timestamp, modelling the `time.Time` values this package
produces. The Go zero `time.Time` is January 1 of year 1, 00:00:00. -/
structure GoTime where
  year : Nat
  month : Nat
  day : Nat
  hour : Nat
  minute : Nat
  second : Nat
deriving DecidableEq, Repr

/-- The zero `time.Time`. -/
def GoTime.zero : GoTime := ⟨1, 1, 1, 0, 0, 0⟩

/-- Model of `time.Time.IsZero`. -/
def GoTime.isZero (t : GoTime) : Bool := t = GoTime.zero

/-- Gregorian leap-year rule (as in Go's `time` package). -/
def isLeapYear (y : Nat) : Bool :=
  y % 4 = 0 && (y % 100 ≠ 0 || y % 400 = 0)

/-- Days in a month (as in Go's `time.daysIn`). -/
def daysIn (mo y : Nat) : Nat :=
  if mo = 2 then (if isLeapYear y then 29 else 28)
  else if mo = 4 || mo = 6 || mo = 9 || mo = 11 then 30
  else 31

/-- Numeric value of a decimal digit character. -/
def digitVal (c : Char) : Nat := c.toNat - 48

/-- Read exactly two digits (Go `time` package `getnum` with `fixed` width). -/
def getnum2 : List Char → Option (Nat × List Char)
  | c1 :: c2 :: rest =>
    if c1.isDigit && c2.isDigit then some (digitVal c1 * 10 + digitVal c2, rest)
    else none
  | _ => none

/-- Read exactly four digits (the `2006` year chunk of the layout). -/
def getnum4 : List Char → Option (Nat × List Char)
  | c1 :: c2 :: c3 :: c4 :: rest =>
    if c1.isDigit && c2.isDigit && c3.isDigit && c4.isDigit then
      some (((digitVal c1 * 10 + digitVal c2) * 10 + digitVal c3) * 10 + digitVal c4, rest)
    else none
  | _ => none

/-- Model of `time.Parse("20060102150405", s)`: scan year, month, day, hour,
minute, second as fixed-width digit runs, requiring the value to be fully
consumed, the hour/minute/second to be in range (checked while scanning, as Go
does), and finally the month and day to be in calendar range. -/
def goTimeParse (s : String) : Option GoTime :=
  match getnum4 s.data with
  | none => none
  | some (y, r1) =>
    match getnum2 r1 with
    | none => none
    | some (mo, r2) =>
      match getnum2 r2 with
      | none => none
      | some (d, r3) =>
        match getnum2 r3 with
        | none => none
        | some (h, r4) =>
          if 24 ≤ h then none else
          match getnum2 r4 with
          | none => none
          | some (mi, r5) =>
            if 60 ≤ mi then none else
            match getnum2 r5 with
            | none => none
            | some (sec, r6) =>
              if 60 ≤ sec then none else
              if r6 ≠ [] then none else
              if mo < 1 ∨ 12 < mo then none else
              if d < 1 ∨ daysIn mo y < d then none else
              some ⟨y, mo, d, h, mi, sec⟩

/-- `ParseDate` (epp2json.go lines 85-93): strings of length 14 are parsed with
the `YYYYMMDDHHMMSS` layout; everything else, and any parse failure, yields the
zero timestamp. -/
def ParseDate (dateStr : String) : GoTime :=
  if dateStr.length = 14 then
    match goTimeParse dateStr with
    | some t => t
    | none => GoTime.zero
  else GoTime.zero

/-! ## Numbers (Go `float64` and `ParseFloat`) -/

/-- Abstract model of the `float64` values this package produces: either the
zero value or a value tagged by the decimal literal it was parsed from.  No
claim depends on floating-point arithmetic, only on which positional field (if
any) a value came from. -/
inductive GoFloat where
  | zero
  | parsed (lit : String)
deriving DecidableEq, Repr

/-- Digits of the mantissa: `digits [. digits]` or `. digits`, at least one
digit in total; returns whether the mantissa is well-formed and the rest. -/
def floatMantissa (cs : List Char) : Bool × List Char :=
  let ip := cs.takeWhile Char.isDigit
  let r1 := cs.dropWhile Char.isDigit
  match r1 with
  | '.' :: r2 =>
    (ip.length + (r2.takeWhile Char.isDigit).length > 0, r2.dropWhile Char.isDigit)
  | _ => (ip.length > 0, r1)

/-- Optional exponent part `e|E [sign] digits`. -/
def floatExponent : List Char → Bool
  | [] => true
  | c :: r =>
    if c = 'e' || c = 'E' then
      let r2 :=
        match r with
        | s1 :: r3 => if s1 = '+' || s1 = '-' then r3 else s1 :: r3
        | [] => []
      r2 ≠ [] && r2.all Char.isDigit
    else false

/-- Modelled from the spec (section 4.5): base-10 floating-point syntax as
accepted by `strconv.ParseFloat` (an external dependency, not part of this
repository): optional sign, decimal mantissa, optional exponent.  The
hexadecimal/inf/NaN forms never occur in EPP numeric fields and are omitted. -/
def isFloatSyntax (s : String) : Bool :=
  let cs :=
    match s.data with
    | c :: rest => if c = '+' || c = '-' then rest else s.data
    | [] => []
  let m := floatMantissa cs
  m.1 && floatExponent m.2

/-- `ParseFloat` (epp2json.go lines 96-101): a parseable numeric string yields
its value, anything else yields `0.0`. -/
def ParseFloat (str : String) : GoFloat :=
  if isFloatSyntax str then GoFloat.parsed str else GoFloat.zero

/-! ## Data model (epp2json.go lines 18-74) -/

/-- `InvoiceItem` (one invoice line). -/
structure InvoiceItem where
  VatRate : String
  Quantity : GoFloat
  NetPrice : GoFloat
  VatAmount : GoFloat
  GrossPrice : GoFloat
  NetTotal : GoFloat
  VatTotal : GoFloat
  GrossTotal : GoFloat
deriving DecidableEq, Repr

/-- `Invoice`.  The Go field `Type` is called `type` here (`Type` is reserved
in Lean). -/
structure Invoice where
  type : String
  Number : String
  InternalNumber : String
  DocumentNumber : String
  Date : GoTime
  IssueDate : GoTime
  SaleDate : GoTime
  ContractorCode : String
  ContractorName : String
  ContractorFullName : String
  City : String
  PostalCode : String
  Address : String
  NIP : String
  Category : String
  NetAmount : GoFloat
  VatAmount : GoFloat
  GrossAmount : GoFloat
  Currency : String
  PaymentDate : GoTime
  Registrar : String
  Items : List InvoiceItem
deriving DecidableEq, Repr

attribute [ext] Invoice

/-- The Go zero value `Invoice{}` (the assembler's initial current invoice). -/
def emptyInvoice : Invoice :=
  { type := "", Number := "", InternalNumber := "", DocumentNumber := "",
    Date := GoTime.zero, IssueDate := GoTime.zero, SaleDate := GoTime.zero,
    ContractorCode := "", ContractorName := "", ContractorFullName := "",
    City := "", PostalCode := "", Address := "", NIP := "", Category := "",
    NetAmount := GoFloat.zero, VatAmount := GoFloat.zero,
    GrossAmount := GoFloat.zero, Currency := "", PaymentDate := GoTime.zero,
    Registrar := "", Items := [] }

/-- One empty item (the Go zero value `InvoiceItem{}`). -/
def emptyItem : InvoiceItem :=
  { VatRate := "", Quantity := GoFloat.zero, NetPrice := GoFloat.zero,
    VatAmount := GoFloat.zero, GrossPrice := GoFloat.zero,
    NetTotal := GoFloat.zero, VatTotal := GoFloat.zero,
    GrossTotal := GoFloat.zero }

/-- `ParseOptions`. -/
structure ParseOptions where
  IncludeFZ : Bool
  IncludeFS : Bool
deriving DecidableEq, Repr

/-- `DefaultParseOptions`. -/
def DefaultParseOptions : ParseOptions := ⟨true, true⟩

/-- `Section`. -/
structure Section where
  Header : String
  Content : String
deriving DecidableEq, Repr

/-- `EPPSections`. -/
structure EPPSections where
  Info : String
  Sections : List Section
deriving DecidableEq, Repr

/-- `EPPData`; the Go `map[string]string` is an association list. -/
structure EPPData where
  Info : List (String × String)
  Invoices : List Invoice
deriving DecidableEq, Repr

/-- Outcome of a Go call in this package: a value, a returned `error`, or a
runtime panic. -/
inductive GoResult (α : Type) where
  | ok (val : α)
  | error (msg : String)
  | panic
deriving DecidableEq, Repr

/-! ## Section splitting (`ParseSections`, epp2json.go lines 102-142) -/

/-- `[NAGLOWEK]` header marker. -/
def headerTag : List Char := "[NAGLOWEK]".data

/-- `[ZAWARTOSC]` content marker. -/
def contentTag : List Char := "[ZAWARTOSC]".data

/-- `[INFO]` info marker. -/
def infoTag : List Char := "[INFO]".data

/-- What one block after a `[NAGLOWEK]` marker contributes: nothing when it
holds no `[ZAWARTOSC]` marker, otherwise one section with the trimmed text
before the marker as header and the trimmed text after it as content
(epp2json.go lines 123-135). -/
def secOf (block : List Char) : Option Section :=
  match splitFirst contentTag block with
  | none => none
  | some (pre, post) =>
    some ⟨trimSpace (String.mk pre), trimSpace (String.mk post)⟩

/-- `ParseSections` (epp2json.go lines 102-142). -/
def ParseSections (input : String) : EPPSections :=
  let blocks := splitAll headerTag input.data
  let info :=
    match blocks with
    | [] => ""
    | firstBlock :: _ =>
      match splitFirst infoTag firstBlock with
      | some (_, post) => trimSpace (String.mk post)
      | none => ""
  let sections :=
    (blocks.drop 1).foldl
      (fun acc block =>
        match secOf block with
        | none => acc
        | some sec => acc ++ [sec])
      []
  ⟨info, sections⟩

/-! ## CSV tokenizing (`ParseCSVLine`, epp2json.go lines 144-154)

Modelled from the spec (section 4.3) and the documented behaviour of Go's
`encoding/csv` reader (an external dependency, not part of this repository):
comma-delimited fields; a field may be double-quote delimited and then holds
commas literally, with a doubled quote as an escaped quote; a bare quote inside
an unquoted field, a stray character after a closing quote, or an unterminated
quoted field is a hard error; blank leading lines are skipped; reading from an
empty input yields the `io.EOF` error because no record is present. A single
`Read` call consumes one record, i.e. one (unquoted) line. The `\r\n`
normalisation inside quoted fields is irrelevant to every claim and omitted. -/

/-- State of the record scanner. -/
inductive CsvMode where
  | start
  | unquoted
  | quoted
  | closedQuote
deriving DecidableEq, Repr

/-- One-record CSV scanner. `cur` holds the characters of the field being
read, `fields` the completed fields. -/
def csvRun : List Char → CsvMode → List Char → List String → Except String (List String)
  | [], .start, _, fields =>
    if fields.isEmpty then .error "EOF" else .ok (fields ++ [""])
  | [], .unquoted, cur, fields => .ok (fields ++ [String.mk cur])
  | [], .quoted, _, _ => .error "extraneous or missing \" in quoted-field"
  | [], .closedQuote, cur, fields => .ok (fields ++ [String.mk cur])
  | c :: rest, .start, _, fields =>
    if c = '"' then csvRun rest .quoted [] fields
    else if c = ',' then csvRun rest .start [] (fields ++ [""])
    else if c = '\n' then
      (if fields.isEmpty then csvRun rest .start [] []
       else .ok (fields ++ [""]))
    else csvRun rest .unquoted [c] fields
  | c :: rest, .unquoted, cur, fields =>
    if c = ',' then csvRun rest .start [] (fields ++ [String.mk cur])
    else if c = '\n' then .ok (fields ++ [String.mk cur])
    else if c = '"' then .error "bare \" in non-quoted-field"
    else csvRun rest .unquoted (cur ++ [c]) fields
  | c :: rest, .quoted, cur, fields =>
    if c = '"' then csvRun rest .closedQuote cur fields
    else csvRun rest .quoted (cur ++ [c]) fields
  | c :: rest, .closedQuote, cur, fields =>
    if c = '"' then csvRun rest .quoted (cur ++ ['"']) fields
    else if c = ',' then csvRun rest .start [] (fields ++ [String.mk cur])
    else if c = '\n' then .ok (fields ++ [String.mk cur])
    else .error "extraneous or missing \" in quoted-field"

/-- `ParseCSVLine` (epp2json.go lines 145-154): read one CSV record from the
line, wrapping any reader error. -/
def ParseCSVLine (line : String) : Except String (List String) :=
  match csvRun line.data .start [] [] with
  | .ok fields => .ok fields
  | .error e => .error ("błąd czytania CSV: " ++ e)

/-! ## Header mapping (`ParseHeader`, epp2json.go lines 157-222) -/

/-- Go line 160-162: `if len(fields) > 0 { invoice.Type = fields[0] }`. -/
def hdrType (fields : List String) (inv : Invoice) : Invoice :=
  if fields.length > 0 then { inv with type := fields.getD 0 "" } else inv

/-- Go line 163-165: `if len(fields) > 4 { invoice.Number = fields[4] }`. -/
def hdrNumber (fields : List String) (inv : Invoice) : Invoice :=
  if fields.length > 4 then { inv with Number := fields.getD 4 "" } else inv

/-- Go line 166-168: internal number from index 6. -/
def hdrInternal (fields : List String) (inv : Invoice) : Invoice :=
  if fields.length > 6 then { inv with InternalNumber := fields.getD 6 "" } else inv

/-- Go line 169-171: contractor code from index 11. -/
def hdrCode (fields : List String) (inv : Invoice) : Invoice :=
  if fields.length > 11 then { inv with ContractorCode := fields.getD 11 "" } else inv

/-- Go line 172-174: contractor name from index 12. -/
def hdrName (fields : List String) (inv : Invoice) : Invoice :=
  if fields.length > 12 then { inv with ContractorName := fields.getD 12 "" } else inv

/-- Go line 175-177: contractor full name from index 13. -/
def hdrFullName (fields : List String) (inv : Invoice) : Invoice :=
  if fields.length > 13 then { inv with ContractorFullName := fields.getD 13 "" } else inv

/-- Go line 178-180: city from index 14. -/
def hdrCity (fields : List String) (inv : Invoice) : Invoice :=
  if fields.length > 14 then { inv with City := fields.getD 14 "" } else inv

/-- Go line 181-183: postal code from index 15. -/
def hdrPostal (fields : List String) (inv : Invoice) : Invoice :=
  if fields.length > 15 then { inv with PostalCode := fields.getD 15 "" } else inv

/-- Go line 184-186: address from index 16. -/
def hdrAddress (fields : List String) (inv : Invoice) : Invoice :=
  if fields.length > 16 then { inv with Address := fields.getD 16 "" } else inv

/-- Go line 187-189: NIP from index 17. -/
def hdrNIP (fields : List String) (inv : Invoice) : Invoice :=
  if fields.length > 17 then { inv with NIP := fields.getD 17 "" } else inv

/-- Go lines 190-192: `if len(fields) > 18 { invoice.Category = fields[19] }`.
The guard checks index 18 but the access reads index 19: on a 19-element slice
that access is a runtime index-out-of-range panic, modelled by `none`. -/
def hdrCategory (fields : List String) (inv : Invoice) : Option Invoice :=
  if fields.length > 18 then
    match fields[19]? with
    | some v => some { inv with Category := v }
    | none => none
  else some inv

/-- Go line 193-195: posting date from index 21. -/
def hdrDate (fields : List String) (inv : Invoice) : Invoice :=
  if fields.length > 21 then { inv with Date := ParseDate (fields.getD 21 "") } else inv

/-- Go line 196-198: issue date from index 22. -/
def hdrIssue (fields : List String) (inv : Invoice) : Invoice :=
  if fields.length > 22 then { inv with IssueDate := ParseDate (fields.getD 22 "") } else inv

/-- Go line 199-201: sale date from index 23. -/
def hdrSale (fields : List String) (inv : Invoice) : Invoice :=
  if fields.length > 23 then { inv with SaleDate := ParseDate (fields.getD 23 "") } else inv

/-- Go line 202-204: net amount from index 27. -/
def hdrNet (fields : List String) (inv : Invoice) : Invoice :=
  if fields.length > 27 then { inv with NetAmount := ParseFloat (fields.getD 27 "") } else inv

/-- Go line 205-207: VAT amount from index 28. -/
def hdrVat (fields : List String) (inv : Invoice) : Invoice :=
  if fields.length > 28 then { inv with VatAmount := ParseFloat (fields.getD 28 "") } else inv

/-- Go line 208-210: gross amount from index 29. -/
def hdrGross (fields : List String) (inv : Invoice) : Invoice :=
  if fields.length > 29 then { inv with GrossAmount := ParseFloat (fields.getD 29 "") } else inv

/-- Go line 211-213: payment due date from index 34. -/
def hdrPayment (fields : List String) (inv : Invoice) : Invoice :=
  if fields.length > 34 then { inv with PaymentDate := ParseDate (fields.getD 34 "") } else inv

/-- Go line 214-216: registrar from index 41. -/
def hdrRegistrar (fields : List String) (inv : Invoice) : Invoice :=
  if fields.length > 41 then { inv with Registrar := fields.getD 41 "" } else inv

/-- Go line 217-219: currency from index 46. -/
def hdrCurrency (fields : List String) (inv : Invoice) : Invoice :=
  if fields.length > 46 then { inv with Currency := fields.getD 46 "" } else inv

/-- The assignments before the category field (Go lines 160-189), in source
order. -/
def hdrPre (fields : List String) (inv : Invoice) : Invoice :=
  hdrNIP fields (hdrAddress fields (hdrPostal fields (hdrCity fields
    (hdrFullName fields (hdrName fields (hdrCode fields (hdrInternal fields
      (hdrNumber fields (hdrType fields inv)))))))))

/-- The assignments after the category field (Go lines 193-219), in source
order. -/
def hdrPost (fields : List String) (inv : Invoice) : Invoice :=
  hdrCurrency fields (hdrRegistrar fields (hdrPayment fields (hdrGross fields
    (hdrVat fields (hdrNet fields (hdrSale fields (hdrIssue fields
      (hdrDate fields inv))))))))

/-- `ParseHeader` (epp2json.go lines 157-222): start from the zero `Invoice{}`
and perform the guarded positional assignments in source order; the category
assignment may panic (`none`). -/
def ParseHeader (fields : List String) : Option Invoice :=
  match hdrCategory fields (hdrPre fields emptyInvoice) with
  | none => none
  | some inv11 => some (hdrPost fields inv11)

/-- Closed form of `ParseHeader` away from the panicking length 19: each
attribute is the field at its index when the sequence is long enough, else the
zero value. -/
def headerFun (fields : List String) : Invoice :=
  { type := if fields.length > 0 then fields.getD 0 "" else ""
    Number := if fields.length > 4 then fields.getD 4 "" else ""
    InternalNumber := if fields.length > 6 then fields.getD 6 "" else ""
    DocumentNumber := ""
    Date := if fields.length > 21 then ParseDate (fields.getD 21 "") else GoTime.zero
    IssueDate := if fields.length > 22 then ParseDate (fields.getD 22 "") else GoTime.zero
    SaleDate := if fields.length > 23 then ParseDate (fields.getD 23 "") else GoTime.zero
    ContractorCode := if fields.length > 11 then fields.getD 11 "" else ""
    ContractorName := if fields.length > 12 then fields.getD 12 "" else ""
    ContractorFullName := if fields.length > 13 then fields.getD 13 "" else ""
    City := if fields.length > 14 then fields.getD 14 "" else ""
    PostalCode := if fields.length > 15 then fields.getD 15 "" else ""
    Address := if fields.length > 16 then fields.getD 16 "" else ""
    NIP := if fields.length > 17 then fields.getD 17 "" else ""
    Category := if fields.length > 18 then fields.getD 19 "" else ""
    NetAmount := if fields.length > 27 then ParseFloat (fields.getD 27 "") else GoFloat.zero
    VatAmount := if fields.length > 28 then ParseFloat (fields.getD 28 "") else GoFloat.zero
    GrossAmount := if fields.length > 29 then ParseFloat (fields.getD 29 "") else GoFloat.zero
    Currency := if fields.length > 46 then fields.getD 46 "" else ""
    PaymentDate := if fields.length > 34 then ParseDate (fields.getD 34 "") else GoTime.zero
    Registrar := if fields.length > 41 then fields.getD 41 "" else ""
    Items := [] }

/-! ## Item mapping (`ParseItem`, epp2json.go lines 225-254) -/

/-- `ParseItem`: positional mapping of indices 0-7, zero values beyond the
sequence length. -/
def ParseItem (fields : List String) : InvoiceItem :=
  let it0 := emptyItem
  let it1 := if fields.length > 0 then { it0 with VatRate := fields.getD 0 "" } else it0
  let it2 := if fields.length > 1 then { it1 with Quantity := ParseFloat (fields.getD 1 "") } else it1
  let it3 := if fields.length > 2 then { it2 with NetPrice := ParseFloat (fields.getD 2 "") } else it2
  let it4 := if fields.length > 3 then { it3 with VatAmount := ParseFloat (fields.getD 3 "") } else it3
  let it5 := if fields.length > 4 then { it4 with GrossPrice := ParseFloat (fields.getD 4 "") } else it4
  let it6 := if fields.length > 5 then { it5 with NetTotal := ParseFloat (fields.getD 5 "") } else it5
  let it7 := if fields.length > 6 then { it6 with VatTotal := ParseFloat (fields.getD 6 "") } else it6
  if fields.length > 7 then { it7 with GrossTotal := ParseFloat (fields.getD 7 "") } else it7

/-! ## Document assembly (`ParseEPPFromString`, epp2json.go lines 257-326) -/

/-- The type filter of the assembler (epp2json.go lines 293-294), with Go's
operator precedence: `&&` binds tighter than `||`. -/
def shouldInclude (invoiceType : String) (options : ParseOptions) : Bool :=
  (invoiceType == "FZ" || invoiceType == "KFZ" && options.IncludeFZ) ||
    (invoiceType == "FS" || invoiceType == "KFS" && options.IncludeFS)

/-- The section loop of `ParseEPPFromString` (epp2json.go lines 281-318),
threading the mutable `currentInvoice` and `eppData.Invoices` as explicit
state. -/
def processSections (options : ParseOptions) :
    List Section → Invoice → List Invoice → GoResult (Invoice × List Invoice)
  | [], cur, acc => .ok (cur, acc)
  | s :: rest, cur, acc =>
    let line := trimSpace s.Header
    if line = "" then processSections options rest cur acc
    else
      match ParseCSVLine line with
      | .error e => .error ("błąd podczas parsowania nagłówka: " ++ e)
      | .ok fields =>
        match fields with
        | [] => processSections options rest cur acc
        | invoiceType :: fr =>
          if shouldInclude invoiceType options then
            let acc2 := if cur.type ≠ "" then acc ++ [cur] else acc
            match ParseHeader (invoiceType :: fr) with
            | none => .panic
            | some inv =>
              let inv2 : Invoice := { inv with Items := [] }
              match ParseCSVLine s.Content with
              | .error e => .error ("błąd podczas parsowania pozycji: " ++ e)
              | .ok cfields =>
                let inv3 :=
                  if inv2.type ≠ "" then
                    { inv2 with Items := inv2.Items ++ [ParseItem cfields] }
                  else inv2
                processSections options rest inv3 acc2
          else processSections options rest cur acc

/-- `ParseEPPFromString` (epp2json.go lines 257-326). -/
def ParseEPPFromString (content : String) (options : ParseOptions) : GoResult EPPData :=
  let sections := ParseSections content
  match ParseCSVLine sections.Info with
  | .error e => .error ("błąd podczas parsowania info: " ++ e)
  | .ok fields =>
    let info : List (String × String) :=
      if fields.length ≥ 2 then
        [("version", fields.getD 0 "")] ++
          (if fields.length > 3 then [("system", fields.getD 3 "")] else []) ++
          (if fields.length > 5 then [("company", fields.getD 5 "")] else [])
      else []
    match processSections options sections.Sections emptyInvoice [] with
    | .panic => .panic
    | .error e => .error e
    | .ok (cur, invs) =>
      .ok ⟨info, if cur.type ≠ "" then invs ++ [cur] else invs⟩

/-! ## Month grouping (`GroupInvoicesByMonth`, epp2json.go lines 438-449) -/

/-- Decimal rendering zero-padded to width 2 (the `01` month chunk of the Go
layout `2006-01`). -/
def pad2 (n : Nat) : String :=
  if n < 10 then "0" ++ toString n else toString n

/-- Decimal rendering zero-padded to width 4 (the `2006` year chunk). -/
def pad4 (n : Nat) : String :=
  if n < 10 then "000" ++ toString n
  else if n < 100 then "00" ++ toString n
  else if n < 1000 then "0" ++ toString n
  else toString n

/-- Model of `t.Format("2006-01")`. -/
def formatYearMonth (t : GoTime) : String :=
  pad4 t.year ++ "-" ++ pad2 t.month

/-- Append an invoice to the bucket keyed `k`, creating the bucket when
missing: the association-list model of `grouped[month] = append(...)`. -/
def addToGroup (g : List (String × List Invoice)) (k : String) (inv : Invoice) :
    List (String × List Invoice) :=
  match g with
  | [] => [(k, [inv])]
  | (k', b) :: rest =>
    if k' = k then (k', b ++ [inv]) :: rest else (k', b) :: addToGroup rest k inv

/-- The loop body of `GroupInvoicesByMonth` (epp2json.go lines 441-446):
invoices with a zero issue date are skipped, the others are appended to the
bucket keyed by the `2006-01` rendering of their issue date. -/
def groupStep (g : List (String × List Invoice)) (inv : Invoice) :
    List (String × List Invoice) :=
  if !inv.IssueDate.isZero then
    addToGroup g (formatYearMonth inv.IssueDate) inv
  else g

/-- `GroupInvoicesByMonth` (epp2json.go lines 438-449). -/
def GroupInvoicesByMonth (invoices : List Invoice) : List (String × List Invoice) :=
  invoices.foldl groupStep []

/-! ## Specification-side definitions (for stating the claims) -/

/-- The section-4.6 index table: every attribute equals the documented mapping
of the field at its zero-based index (string fields verbatim, date fields via
`ParseDate`, amount fields via `ParseFloat`). -/
def HeaderMappingSpec (inv : Invoice) (fields : List String) : Prop :=
  inv.type = fields.getD 0 "" ∧
  inv.Number = fields.getD 4 "" ∧
  inv.InternalNumber = fields.getD 6 "" ∧
  inv.ContractorCode = fields.getD 11 "" ∧
  inv.ContractorName = fields.getD 12 "" ∧
  inv.ContractorFullName = fields.getD 13 "" ∧
  inv.City = fields.getD 14 "" ∧
  inv.PostalCode = fields.getD 15 "" ∧
  inv.Address = fields.getD 16 "" ∧
  inv.NIP = fields.getD 17 "" ∧
  inv.Category = fields.getD 19 "" ∧
  inv.Date = ParseDate (fields.getD 21 "") ∧
  inv.IssueDate = ParseDate (fields.getD 22 "") ∧
  inv.SaleDate = ParseDate (fields.getD 23 "") ∧
  inv.NetAmount = ParseFloat (fields.getD 27 "") ∧
  inv.VatAmount = ParseFloat (fields.getD 28 "") ∧
  inv.GrossAmount = ParseFloat (fields.getD 29 "") ∧
  inv.PaymentDate = ParseDate (fields.getD 34 "") ∧
  inv.Registrar = fields.getD 41 "" ∧
  inv.Currency = fields.getD 46 ""

/-- Every attribute whose documented index is at least `n` (the sequence
length) is the corresponding zero value. -/
def ZeroAbove (inv : Invoice) (n : Nat) : Prop :=
  (n ≤ 0 → inv.type = "") ∧
  (n ≤ 4 → inv.Number = "") ∧
  (n ≤ 6 → inv.InternalNumber = "") ∧
  (n ≤ 11 → inv.ContractorCode = "") ∧
  (n ≤ 12 → inv.ContractorName = "") ∧
  (n ≤ 13 → inv.ContractorFullName = "") ∧
  (n ≤ 14 → inv.City = "") ∧
  (n ≤ 15 → inv.PostalCode = "") ∧
  (n ≤ 16 → inv.Address = "") ∧
  (n ≤ 17 → inv.NIP = "") ∧
  (n ≤ 19 → inv.Category = "") ∧
  (n ≤ 21 → inv.Date = GoTime.zero) ∧
  (n ≤ 22 → inv.IssueDate = GoTime.zero) ∧
  (n ≤ 23 → inv.SaleDate = GoTime.zero) ∧
  (n ≤ 27 → inv.NetAmount = GoFloat.zero) ∧
  (n ≤ 28 → inv.VatAmount = GoFloat.zero) ∧
  (n ≤ 29 → inv.GrossAmount = GoFloat.zero) ∧
  (n ≤ 34 → inv.PaymentDate = GoTime.zero) ∧
  (n ≤ 41 → inv.Registrar = "") ∧
  (n ≤ 46 → inv.Currency = "")

/-- Value of the `n` decimal digits starting the list (spec-side reading of a
digit run). -/
def natOfDigits (l : List Char) : Nat :=
  l.foldl (fun a c => a * 10 + digitVal c) 0

/-- The numeric value of the digit run of width `n` starting at character
position `i` of `s`. -/
def fieldNat (s : String) (i n : Nat) : Nat :=
  natOfDigits ((s.data.drop i).take n)

/-- Follows the spec's words (section 4.4): `s` is a valid `YYYYMMDDHHMMSS`
calendar timestamp - all characters are digits, the month is 1-12, the day
fits the month (leap years included), the hour is at most 23 and the minute
and second at most 59.  (Only meaningful together with `s.length = 14`.) -/
def ValidYmdhms (s : String) : Prop :=
  (∀ c ∈ s.data, c.isDigit) ∧
  1 ≤ fieldNat s 4 2 ∧ fieldNat s 4 2 ≤ 12 ∧
  1 ≤ fieldNat s 6 2 ∧ fieldNat s 6 2 ≤ daysIn (fieldNat s 4 2) (fieldNat s 0 4) ∧
  fieldNat s 8 2 ≤ 23 ∧ fieldNat s 10 2 ≤ 59 ∧ fieldNat s 12 2 ≤ 59

instance (s : String) : Decidable (ValidYmdhms s) := by
  unfold ValidYmdhms; infer_instance

/-- The timestamp denoted by a valid 14-digit string. -/
def ymdhmsOf (s : String) : GoTime :=
  ⟨fieldNat s 0 4, fieldNat s 4 2, fieldNat s 6 2,
    fieldNat s 8 2, fieldNat s 10 2, fieldNat s 12 2⟩

/-- Follows the spec's words (section 4.4): a 14-character string that is a
valid `YYYYMMDDHHMMSS` calendar timestamp yields that timestamp; every other
input yields the zero timestamp; no error is ever signalled. -/
def specParseDate (s : String) : GoTime :=
  if s.length = 14 ∧ ValidYmdhms s then ymdhmsOf s else GoTime.zero

/-- A section passes the assembler's filter: nonempty trimmed header whose
first tokenized field is an included type code. -/
def qualifies (options : ParseOptions) (s : Section) : Bool :=
  if trimSpace s.Header = "" then false
  else
    match ParseCSVLine (trimSpace s.Header) with
    | .ok (invoiceType :: _) => shouldInclude invoiceType options
    | _ => false

/-- The invoice a qualifying, successfully parsed section contributes: its
mapped header carrying exactly the one item mapped from its tokenized content
line.  (The fallback branches are unreachable when the whole parse
succeeds.) -/
def builtInvoice (s : Section) : Invoice :=
  match ParseCSVLine (trimSpace s.Header) with
  | .ok fields =>
    match ParseHeader fields with
    | some inv =>
      let inv2 : Invoice := { inv with Items := [] }
      match ParseCSVLine s.Content with
      | .ok cfields =>
        if inv2.type ≠ "" then
          { inv2 with Items := inv2.Items ++ [ParseItem cfields] }
        else inv2
      | .error _ => emptyInvoice
    | none => emptyInvoice
  | .error _ => emptyInvoice

/-- The pending-invoice flush (epp2json.go lines 298-300 and 321-323). -/
def flushPending (inv : Invoice) : List Invoice :=
  if inv.type ≠ "" then [inv] else []

/-- All three tokenizations a qualifying section needs succeed (header line
nonempty, header mapping does not panic, content line parses). -/
def SectionOk (s : Section) : Prop :=
  ∃ t fr, ParseCSVLine (trimSpace s.Header) = .ok (t :: fr) ∧
    (∃ inv, ParseHeader (t :: fr) = some inv) ∧
    ∃ cf, ParseCSVLine s.Content = .ok cf

/-- The preamble: the text before the first `[NAGLOWEK]` marker. -/
def preambleOf (input : String) : List Char :=
  (splitAll headerTag input.data).headD []

/-- Concrete document used to witness the single-item claim. -/
def witnessDocSingleItem : EPPData :=
  { Info := [],
    Invoices := [{ emptyInvoice with
                   type := "FZ", Number := "NR2",
                   Items := [{ VatRate := "23", Quantity := GoFloat.parsed "1",
                               NetPrice := GoFloat.parsed "10",
                               VatAmount := GoFloat.parsed "2.3",
                               GrossPrice := GoFloat.parsed "12.3",
                               NetTotal := GoFloat.parsed "10",
                               VatTotal := GoFloat.parsed "2.3",
                               GrossTotal := GoFloat.parsed "12.3" }] }] }

/-- Concrete two-invoice document used to witness the nonempty-type claim. -/
def witnessDocTypes : EPPData :=
  { Info := [],
    Invoices := [
      { emptyInvoice with type := "FS",
                          Items := [{ emptyItem with VatRate := "8" }] },
      { emptyInvoice with type := "KFZ",
                          Items := [{ emptyItem with VatRate := "5" }] }] }

/-! ## Lemmas: splitting -/

theorem splitFirst_nil_of_ne {pat : List Char} (hp : pat ≠ []) :
    splitFirst pat [] = none := by
  cases pat with
  | nil => exact absurd rfl hp
  | cons c cs => rfl

theorem splitFirst_sound {pat : List Char} :
    ∀ {l pre post : List Char}, splitFirst pat l = some (pre, post) →
      l = pre ++ pat ++ post := by
  intro l
  induction l with
  | nil =>
    intro pre post h
    unfold splitFirst at h
    by_cases hpre : pat.isPrefixOf ([] : List Char)
    · rw [if_pos hpre] at h
      have hpat : pat = [] := by
        have := List.isPrefixOf_iff_prefix.mp hpre
        simpa using this
      obtain ⟨rfl, rfl⟩ : pre = [] ∧ post = [] := by
        constructor <;> [exact (Prod.mk.injEq _ _ _ _ ▸ Option.some.inj h).1.symm;
          exact (Prod.mk.injEq _ _ _ _ ▸ Option.some.inj h).2.symm]
      simp [hpat]
    · rw [if_neg hpre] at h
      exact absurd h (by simp)
  | cons c cs ih =>
    intro pre post h
    unfold splitFirst at h
    by_cases hpre : pat.isPrefixOf (c :: cs)
    · rw [if_pos hpre] at h
      obtain ⟨t, ht⟩ := List.isPrefixOf_iff_prefix.mp hpre
      obtain ⟨rfl, rfl⟩ : pre = [] ∧ post = (c :: cs).drop pat.length := by
        have h' := Option.some.inj h
        exact ⟨(Prod.mk.injEq _ _ _ _ ▸ h').1.symm, (Prod.mk.injEq _ _ _ _ ▸ h').2.symm⟩
      rw [← ht, List.drop_left]
      simp
    · rw [if_neg hpre] at h
      cases hcs : splitFirst pat cs with
      | none => rw [hcs] at h; exact absurd h (by simp)
      | some pr =>
        obtain ⟨pre0, post0⟩ := pr
        rw [hcs] at h
        have h' := Option.some.inj h
        obtain ⟨rfl, rfl⟩ : pre = c :: pre0 ∧ post = post0 :=
          ⟨(Prod.mk.injEq _ _ _ _ ▸ h').1.symm, (Prod.mk.injEq _ _ _ _ ▸ h').2.symm⟩
        have := ih hcs
        simp [this]

theorem splitFirst_first {pat : List Char} (hp : pat ≠ []) :
    ∀ {l pre post : List Char}, splitFirst pat l = some (pre, post) →
      ∀ pre' post', l = pre' ++ pat ++ post' → pre.length ≤ pre'.length := by
  intro l
  induction l with
  | nil =>
    intro pre post h
    rw [splitFirst_nil_of_ne hp] at h
    exact absurd h (by simp)
  | cons c cs ih =>
    intro pre post h pre' post' hsplit
    unfold splitFirst at h
    by_cases hpre : pat.isPrefixOf (c :: cs)
    · rw [if_pos hpre] at h
      have : pre = [] := (Prod.mk.injEq _ _ _ _ ▸ Option.some.inj h).1.symm
      simp [this]
    · rw [if_neg hpre] at h
      cases hcs : splitFirst pat cs with
      | none => rw [hcs] at h; exact absurd h (by simp)
      | some pr =>
        obtain ⟨pre0, post0⟩ := pr
        rw [hcs] at h
        have h' := Option.some.inj h
        have hpreq : pre = c :: pre0 := (Prod.mk.injEq _ _ _ _ ▸ h').1.symm
        cases pre' with
        | nil =>
          exfalso
          apply hpre
          refine List.isPrefixOf_iff_prefix.mpr ⟨post', ?_⟩
          simpa using hsplit.symm
        | cons c' pre0' =>
          have hcs' : cs = pre0' ++ pat ++ post' := by
            have h2 := hsplit
            simp at h2
            rw [List.append_assoc]
            exact h2.2
          have := ih hcs pre0' post' hcs'
          simp [hpreq]
          omega

theorem splitFirst_none_iff {pat l : List Char} :
    splitFirst pat l = none ↔ ¬ Occurs pat l := by
  constructor
  · intro h hocc
    obtain ⟨pre, post, hsplit⟩ := hocc
    induction l generalizing pre with
    | nil =>
      have hnil : pre ++ pat ++ post = [] := hsplit.symm
      have hpat : pat = [] :=
        (List.append_eq_nil.mp (List.append_eq_nil.mp hnil).1).2
      subst hpat
      simp [splitFirst] at h
    | cons c cs ih =>
      unfold splitFirst at h
      by_cases hpre : pat.isPrefixOf (c :: cs)
      · rw [if_pos hpre] at h; exact absurd h (by simp)
      · rw [if_neg hpre] at h
        cases pre with
        | nil =>
          apply hpre
          exact List.isPrefixOf_iff_prefix.mpr ⟨post, by simpa using hsplit.symm⟩
        | cons c' pre0 =>
          cases hcs : splitFirst pat cs with
          | none =>
            have hcs' : cs = pre0 ++ pat ++ post := by
              have h2 := hsplit
              simp at h2
              rw [List.append_assoc]
              exact h2.2
            exact ih hcs pre0 hcs'
          | some pr => rw [hcs] at h; exact absurd h (by simp)
  · intro hno
    cases h : splitFirst pat l with
    | none => rfl
    | some pr =>
      obtain ⟨pre, post⟩ := pr
      exact absurd ⟨pre, post, splitFirst_sound h⟩ hno

theorem splitFirst_post_length {pat : List Char} (hp : pat ≠ [])
    {l pre post : List Char} (h : splitFirst pat l = some (pre, post)) :
    post.length < l.length := by
  have hs := splitFirst_sound h
  have hlen : l.length = pre.length + (pat.length + post.length) := by simp [hs]
  have hpat : 0 < pat.length := List.length_pos.mpr hp
  omega

theorem splitAllFuel_congr {pat : List Char} (hp : pat ≠ []) :
    ∀ (n : Nat) {f1 f2 : Nat} {s : List Char}, s.length ≤ n →
      s.length ≤ f1 → s.length ≤ f2 →
      splitAllFuel pat f1 s = splitAllFuel pat f2 s := by
  intro n
  induction n with
  | zero =>
    intro f1 f2 s hs _ _
    have : s = [] := List.length_eq_zero.mp (Nat.le_zero.mp hs)
    subst this
    cases f1 <;> cases f2 <;>
      simp [splitAllFuel, splitFirst_nil_of_ne hp]
  | succ n ih =>
    intro f1 f2 s hs h1 h2
    cases f1 with
    | zero =>
      have : s = [] := List.length_eq_zero.mp (Nat.le_zero.mp h1)
      subst this
      cases f2 <;> simp [splitAllFuel, splitFirst_nil_of_ne hp]
    | succ g1 =>
      cases f2 with
      | zero =>
        have : s = [] := List.length_eq_zero.mp (Nat.le_zero.mp h2)
        subst this
        simp [splitAllFuel, splitFirst_nil_of_ne hp]
      | succ g2 =>
        show splitAllFuel pat (g1 + 1) s = splitAllFuel pat (g2 + 1) s
        unfold splitAllFuel
        cases h : splitFirst pat s with
        | none => rfl
        | some pr =>
          obtain ⟨pre, post⟩ := pr
          have hlt := splitFirst_post_length hp h
          have hn : post.length ≤ n := by omega
          simp only
          exact congrArg (pre :: ·)
            (@ih g1 g2 post hn (by omega) (by omega))

theorem splitAll_eq {pat : List Char} (hp : pat ≠ []) (s : List Char) :
    splitAll pat s =
      match splitFirst pat s with
      | none => [s]
      | some (pre, post) => pre :: splitAll pat post := by
  cases h : splitFirst pat s with
  | none =>
    simp only
    unfold splitAll
    cases hn : s.length with
    | zero => rfl
    | succ n =>
      show (match splitFirst pat s with
        | none => [s]
        | some (pre, post) => pre :: splitAllFuel pat n post) = [s]
      rw [h]
  | some pr =>
    obtain ⟨pre, post⟩ := pr
    simp only
    unfold splitAll
    cases hn : s.length with
    | zero =>
      exfalso
      have hnil : s = [] := List.length_eq_zero.mp hn
      subst hnil
      rw [splitFirst_nil_of_ne hp] at h
      cases h
    | succ n =>
      show (match splitFirst pat s with
        | none => [s]
        | some (pre, post) => pre :: splitAllFuel pat n post) =
        pre :: splitAllFuel pat post.length post
      rw [h]
      have hlt := splitFirst_post_length hp h
      exact congrArg (pre :: ·)
        (@splitAllFuel_congr pat hp post.length n post.length post le_rfl
          (by omega) le_rfl)

theorem splitAll_ne_nil (pat s : List Char) : splitAll pat s ≠ [] := by
  unfold splitAll
  cases s.length with
  | zero => simp [splitAllFuel]
  | succ n =>
    unfold splitAllFuel
    cases splitFirst pat s with
    | none => simp
    | some pr => obtain ⟨pre, post⟩ := pr; simp

theorem joinWith_cons {sep x : List Char} {l : List (List Char)} (hl : l ≠ []) :
    joinWith sep (x :: l) = x ++ sep ++ joinWith sep l := by
  cases l with
  | nil => exact absurd rfl hl
  | cons y rest => rfl

theorem joinWith_splitAll {pat : List Char} (hp : pat ≠ []) (s : List Char) :
    joinWith pat (splitAll pat s) = s := by
  have H : ∀ (n : Nat) (s : List Char), s.length ≤ n →
      joinWith pat (splitAll pat s) = s := by
    intro n
    induction n with
    | zero =>
      intro s hs
      have : s = [] := List.length_eq_zero.mp (Nat.le_zero.mp hs)
      subst this
      rw [splitAll_eq hp, splitFirst_nil_of_ne hp]
      rfl
    | succ n ih =>
      intro s hs
      rw [splitAll_eq hp]
      cases h : splitFirst pat s with
      | none => rfl
      | some pr =>
        obtain ⟨pre, post⟩ := pr
        have hlt := splitFirst_post_length hp h
        simp only
        rw [joinWith_cons (splitAll_ne_nil pat post), ih post (by omega),
          ← splitFirst_sound h]
  exact H s.length s le_rfl

theorem foldl_sec_append :
    ∀ (l : List (List Char)) (acc : List Section),
      l.foldl
        (fun acc block =>
          match secOf block with
          | none => acc
          | some sec => acc ++ [sec]) acc
        = acc ++ l.filterMap secOf := by
  intro l
  induction l with
  | nil => intro acc; simp
  | cons x xs ih =>
    intro acc
    rw [List.foldl_cons, List.filterMap_cons]
    cases h : secOf x with
    | none => simp only [h]; rw [ih]
    | some y => simp only [h]; rw [ih, List.append_assoc]; rfl

/-! ## Lemmas: list indexing -/

theorem getElem?_eq_some_getD :
    ∀ (l : List String) (i : Nat), i < l.length → l[i]? = some (l.getD i "") := by
  intro l
  induction l with
  | nil => intro i h; simp at h
  | cons x xs ih =>
    intro i h
    cases i with
    | zero => simp
    | succ j => simpa using ih j (by simpa using h)

theorem getElem?_none_of_le :
    ∀ (l : List String) (i : Nat), l.length ≤ i → l[i]? = none := by
  intro l
  induction l with
  | nil => intro i _; simp
  | cons x xs ih =>
    intro i h
    cases i with
    | zero => simp at h
    | succ j => simpa using ih j (by simpa using h)

/-! ## Lemmas: the header mapper -/

theorem hdrType_eq (fields : List String) (inv : Invoice) :
    hdrType fields inv =
      { inv with type := if fields.length > 0 then fields.getD 0 "" else inv.type } := by
  unfold hdrType; by_cases h : fields.length > 0 <;> simp [h]

theorem hdrNumber_eq (fields : List String) (inv : Invoice) :
    hdrNumber fields inv =
      { inv with Number := if fields.length > 4 then fields.getD 4 "" else inv.Number } := by
  unfold hdrNumber; by_cases h : fields.length > 4 <;> simp [h]

theorem hdrInternal_eq (fields : List String) (inv : Invoice) :
    hdrInternal fields inv =
      { inv with InternalNumber := if fields.length > 6 then fields.getD 6 "" else inv.InternalNumber } := by
  unfold hdrInternal; by_cases h : fields.length > 6 <;> simp [h]

theorem hdrCode_eq (fields : List String) (inv : Invoice) :
    hdrCode fields inv =
      { inv with ContractorCode := if fields.length > 11 then fields.getD 11 "" else inv.ContractorCode } := by
  unfold hdrCode; by_cases h : fields.length > 11 <;> simp [h]

theorem hdrName_eq (fields : List String) (inv : Invoice) :
    hdrName fields inv =
      { inv with ContractorName := if fields.length > 12 then fields.getD 12 "" else inv.ContractorName } := by
  unfold hdrName; by_cases h : fields.length > 12 <;> simp [h]

theorem hdrFullName_eq (fields : List String) (inv : Invoice) :
    hdrFullName fields inv =
      { inv with ContractorFullName := if fields.length > 13 then fields.getD 13 "" else inv.ContractorFullName } := by
  unfold hdrFullName; by_cases h : fields.length > 13 <;> simp [h]

theorem hdrCity_eq (fields : List String) (inv : Invoice) :
    hdrCity fields inv =
      { inv with City := if fields.length > 14 then fields.getD 14 "" else inv.City } := by
  unfold hdrCity; by_cases h : fields.length > 14 <;> simp [h]

theorem hdrPostal_eq (fields : List String) (inv : Invoice) :
    hdrPostal fields inv =
      { inv with PostalCode := if fields.length > 15 then fields.getD 15 "" else inv.PostalCode } := by
  unfold hdrPostal; by_cases h : fields.length > 15 <;> simp [h]

theorem hdrAddress_eq (fields : List String) (inv : Invoice) :
    hdrAddress fields inv =
      { inv with Address := if fields.length > 16 then fields.getD 16 "" else inv.Address } := by
  unfold hdrAddress; by_cases h : fields.length > 16 <;> simp [h]

theorem hdrNIP_eq (fields : List String) (inv : Invoice) :
    hdrNIP fields inv =
      { inv with NIP := if fields.length > 17 then fields.getD 17 "" else inv.NIP } := by
  unfold hdrNIP; by_cases h : fields.length > 17 <;> simp [h]

theorem hdrDate_eq (fields : List String) (inv : Invoice) :
    hdrDate fields inv =
      { inv with Date := if fields.length > 21 then ParseDate (fields.getD 21 "") else inv.Date } := by
  unfold hdrDate; by_cases h : fields.length > 21 <;> simp [h]

theorem hdrIssue_eq (fields : List String) (inv : Invoice) :
    hdrIssue fields inv =
      { inv with IssueDate := if fields.length > 22 then ParseDate (fields.getD 22 "") else inv.IssueDate } := by
  unfold hdrIssue; by_cases h : fields.length > 22 <;> simp [h]

theorem hdrSale_eq (fields : List String) (inv : Invoice) :
    hdrSale fields inv =
      { inv with SaleDate := if fields.length > 23 then ParseDate (fields.getD 23 "") else inv.SaleDate } := by
  unfold hdrSale; by_cases h : fields.length > 23 <;> simp [h]

theorem hdrNet_eq (fields : List String) (inv : Invoice) :
    hdrNet fields inv =
      { inv with NetAmount := if fields.length > 27 then ParseFloat (fields.getD 27 "") else inv.NetAmount } := by
  unfold hdrNet; by_cases h : fields.length > 27 <;> simp [h]

theorem hdrVat_eq (fields : List String) (inv : Invoice) :
    hdrVat fields inv =
      { inv with VatAmount := if fields.length > 28 then ParseFloat (fields.getD 28 "") else inv.VatAmount } := by
  unfold hdrVat; by_cases h : fields.length > 28 <;> simp [h]

theorem hdrGross_eq (fields : List String) (inv : Invoice) :
    hdrGross fields inv =
      { inv with GrossAmount := if fields.length > 29 then ParseFloat (fields.getD 29 "") else inv.GrossAmount } := by
  unfold hdrGross; by_cases h : fields.length > 29 <;> simp [h]

theorem hdrPayment_eq (fields : List String) (inv : Invoice) :
    hdrPayment fields inv =
      { inv with PaymentDate := if fields.length > 34 then ParseDate (fields.getD 34 "") else inv.PaymentDate } := by
  unfold hdrPayment; by_cases h : fields.length > 34 <;> simp [h]

theorem hdrRegistrar_eq (fields : List String) (inv : Invoice) :
    hdrRegistrar fields inv =
      { inv with Registrar := if fields.length > 41 then fields.getD 41 "" else inv.Registrar } := by
  unfold hdrRegistrar; by_cases h : fields.length > 41 <;> simp [h]

theorem hdrCurrency_eq (fields : List String) (inv : Invoice) :
    hdrCurrency fields inv =
      { inv with Currency := if fields.length > 46 then fields.getD 46 "" else inv.Currency } := by
  unfold hdrCurrency; by_cases h : fields.length > 46 <;> simp [h]

theorem parseHeader_length19_panics_aux {fields : List String}
    (h : fields.length = 19) : ParseHeader fields = none := by
  have hget : fields[19]? = none := getElem?_none_of_le fields 19 (by omega)
  unfold ParseHeader hdrCategory
  rw [if_pos (by omega : fields.length > 18), hget]

theorem parseHeader_eq (fields : List String) (h19 : fields.length ≠ 19) :
    ParseHeader fields = some (headerFun fields) := by
  unfold ParseHeader hdrCategory hdrPre hdrPost
  by_cases h18 : fields.length > 18
  · have h20 : 19 < fields.length := by omega
    have hget : fields[19]? = some (fields.getD 19 "") :=
      getElem?_eq_some_getD fields 19 h20
    rw [if_pos h18, hget]
    simp only [hdrType_eq, hdrNumber_eq, hdrInternal_eq, hdrCode_eq, hdrName_eq,
      hdrFullName_eq, hdrCity_eq, hdrPostal_eq, hdrAddress_eq, hdrNIP_eq,
      hdrDate_eq, hdrIssue_eq, hdrSale_eq, hdrNet_eq, hdrVat_eq, hdrGross_eq,
      hdrPayment_eq, hdrRegistrar_eq, hdrCurrency_eq]
    simp [headerFun, emptyInvoice, h18]
  · rw [if_neg h18]
    simp only [hdrType_eq, hdrNumber_eq, hdrInternal_eq, hdrCode_eq, hdrName_eq,
      hdrFullName_eq, hdrCity_eq, hdrPostal_eq, hdrAddress_eq, hdrNIP_eq,
      hdrDate_eq, hdrIssue_eq, hdrSale_eq, hdrNet_eq, hdrVat_eq, hdrGross_eq,
      hdrPayment_eq, hdrRegistrar_eq, hdrCurrency_eq]
    simp [headerFun, emptyInvoice, h18]

theorem parseHeader_type {t : String} {fr : List String} {inv : Invoice}
    (h : ParseHeader (t :: fr) = some inv) : inv.type = t := by
  by_cases h19 : (t :: fr).length = 19
  · rw [parseHeader_length19_panics_aux h19] at h
    cases h
  · rw [parseHeader_eq _ h19] at h
    have hh := Option.some.inj h
    subst hh
    simp [headerFun]

/-! ## Claims C1-C3 -/

/-- C1: under any `ParseOptions`, a header type of `"FZ"` or `"FS"` passes the
assembler's inclusion filter regardless of the `IncludeFZ`/`IncludeFS` flags,
`"KFZ"` passes exactly when `IncludeFZ` is set, `"KFS"` passes exactly when
`IncludeFS` is set, and any other type never passes: the filter is equal to
the flattened boolean expression on the right, which is false for every type
code other than those four. -/
theorem shouldInclude_precedence (t : String) (options : ParseOptions) :
    shouldInclude t options =
      ((t == "FZ") || (t == "FS") ||
        ((t == "KFZ") && options.IncludeFZ) || ((t == "KFS") && options.IncludeFS)) := by
  unfold shouldInclude
  cases h1 : (t == "FZ") <;> cases h2 : (t == "KFZ") <;> cases h3 : (t == "FS") <;>
    cases h4 : (t == "KFS") <;> cases options.IncludeFZ <;> cases options.IncludeFS <;> rfl

/-- C2: for every tokenized header field sequence of exactly 19 fields, the
category guard `len(fields) > 18` passes and the code reads `fields[19]`,
which is out of range: `ParseHeader` aborts in a runtime index-out-of-range
panic (modelled by `none`) instead of returning an invoice with the category
unset, contradicting the claim's first half.  (Its second half - 20 or more
fields set the category from index 19 - does hold; see
`parseHeader_offset_table`.) -/
theorem parseHeader_length19_panics (fields : List String)
    (h : fields.length = 19) : ParseHeader fields = none :=
  parseHeader_length19_panics_aux h

/-- Witness for C2 at a concrete 19-field sequence. -/
theorem parseHeader_length19_panics_witness :
    ParseHeader ["FZ", "", "", "", "", "", "", "", "", "", "", "", "", "", "",
      "", "", "", ""] = none :=
  parseHeader_length19_panics _ (by decide)

/-- C3, counterexample to the claim as stated: its second half quantifies over
every sequence of length strictly less than 47, but at length exactly 19 the
mapper does not return an invoice at all - the category access panics - so no
attribute can be the zero value. -/
theorem parseHeader_offset_table_cex :
    ¬ (∀ fields : List String, fields.length < 47 →
        ∃ inv, ParseHeader fields = some inv ∧ ZeroAbove inv fields.length) := by
  intro hclaim
  obtain ⟨inv, heq, -⟩ := hclaim (List.replicate 19 "x") (by decide)
  rw [parseHeader_length19_panics_aux (by decide)] at heq
  cases heq

/-- C3 as amended: for every tokenized header sequence whose length is not
exactly 19 (where the out-of-range category access aborts the mapper instead),
`ParseHeader` returns an invoice; when the length is at least 47 every
attribute of the section-4.6 index table equals the documented mapping of the
field at its zero-based index, and every attribute whose documented index is
at least the sequence length is the corresponding zero value (empty string,
zero timestamp, or zero amount). -/
theorem parseHeader_offset_table (fields : List String)
    (h19 : fields.length ≠ 19) :
    ∃ inv, ParseHeader fields = some inv ∧
      (47 ≤ fields.length → HeaderMappingSpec inv fields) ∧
      ZeroAbove inv fields.length := by
  refine ⟨headerFun fields, parseHeader_eq fields h19, ?_, ?_⟩
  · intro h47
    unfold HeaderMappingSpec headerFun
    simp only
    refine ⟨?_, ?_, ?_, ?_, ?_, ?_, ?_, ?_, ?_, ?_, ?_, ?_, ?_, ?_, ?_, ?_, ?_,
      ?_, ?_, ?_⟩ <;> rw [if_pos (by omega)]
  · unfold ZeroAbove headerFun
    simp only
    refine ⟨?_, ?_, ?_, ?_, ?_, ?_, ?_, ?_, ?_, ?_, ?_, ?_, ?_, ?_, ?_, ?_, ?_,
      ?_, ?_, ?_⟩ <;> (intro hle; rw [if_neg (by omega)])

/-- Witness for C3 at a concrete 47-field sequence. -/
theorem parseHeader_offset_table_witness :
    ∃ inv, ParseHeader (List.replicate 47 "7") = some inv ∧
      (47 ≤ (List.replicate 47 "7").length →
        HeaderMappingSpec inv (List.replicate 47 "7")) ∧
      ZeroAbove inv (List.replicate 47 "7").length :=
  parseHeader_offset_table _ (by decide)

/-! ## Lemmas: the document assembler -/

theorem shouldInclude_ne_empty {t : String} {options : ParseOptions}
    (h : shouldInclude t options = true) : t ≠ "" := by
  intro he
  subst he
  obtain ⟨fz, fs⟩ := options
  cases fz <;> cases fs <;> exact absurd h (by decide)

theorem append_flushPending (acc : List Invoice) (cur : Invoice) :
    (if cur.type ≠ "" then acc ++ [cur] else acc) = acc ++ flushPending cur := by
  unfold flushPending
  by_cases h : cur.type = "" <;> simp [h]

theorem processSections_ok {options : ParseOptions} :
    ∀ (ss : List Section) (cur : Invoice) (acc : List Invoice)
      (p : Invoice × List Invoice),
      processSections options ss cur acc = .ok p →
      (p.2 ++ flushPending p.1 =
        (acc ++ flushPending cur) ++ (ss.filter (qualifies options)).map builtInvoice) ∧
      (∀ s ∈ ss, qualifies options s = true → SectionOk s) := by
  intro ss
  induction ss with
  | nil =>
    intro cur acc p h
    simp only [processSections] at h
    have hp := GoResult.ok.inj h
    subst hp
    simp
  | cons s rest ih =>
    intro cur acc p h
    simp only [processSections] at h
    by_cases hline : trimSpace s.Header = ""
    · rw [if_pos hline] at h
      have hq : qualifies options s = false := by
        unfold qualifies
        rw [if_pos hline]
      obtain ⟨h1, h2⟩ := ih cur acc p h
      refine ⟨by simpa [hq] using h1, ?_⟩
      intro s' hs' hq'
      rcases hs' with _ | hs'
      · rw [hq] at hq'; cases hq'
      · exact h2 s' (by assumption) hq'
    · rw [if_neg hline] at h
      cases hcsv : ParseCSVLine (trimSpace s.Header) with
      | error e => rw [hcsv] at h; cases h
      | ok fields =>
        rw [hcsv] at h
        cases fields with
        | nil =>
          dsimp only at h
          have hq : qualifies options s = false := by
            unfold qualifies
            rw [if_neg hline, hcsv]
          obtain ⟨h1, h2⟩ := ih cur acc p h
          refine ⟨by simpa [hq] using h1, ?_⟩
          intro s' hs' hq'
          rcases hs' with _ | hs'
          · rw [hq] at hq'; cases hq'
          · exact h2 s' (by assumption) hq'
        | cons t fr =>
          dsimp only at h
          by_cases hinc : shouldInclude t options = true
          · rw [if_pos hinc] at h
            have hq : qualifies options s = true := by
              unfold qualifies
              rw [if_neg hline, hcsv]
              dsimp only
              exact hinc
            cases hph : ParseHeader (t :: fr) with
            | none => rw [hph] at h; cases h
            | some inv =>
              rw [hph] at h
              dsimp only at h
              cases hcf : ParseCSVLine s.Content with
              | error e => rw [hcf] at h; cases h
              | ok cfields =>
                rw [hcf] at h
                dsimp only at h
                have htype : inv.type = t := parseHeader_type hph
                have hne : inv.type ≠ "" := htype ▸ shouldInclude_ne_empty hinc
                simp only [if_pos hne] at h
                obtain ⟨h1, h2⟩ := ih _ _ p h
                have hbuilt :
                    builtInvoice s =
                      { inv with Items := ([] : List InvoiceItem) ++ [ParseItem cfields] } := by
                  unfold builtInvoice
                  rw [hcsv]
                  dsimp only
                  rw [hph]
                  dsimp only
                  rw [hcf]
                  dsimp only
                  rw [if_pos hne]
                have hflush :
                    flushPending { inv with Items := ([] : List InvoiceItem) ++ [ParseItem cfields] } =
                      [{ inv with Items := ([] : List InvoiceItem) ++ [ParseItem cfields] }] := by
                  unfold flushPending
                  dsimp only
                  rw [if_pos hne]
                constructor
                · rw [h1, append_flushPending, hflush]
                  have hfilter :
                      List.filter (qualifies options) (s :: rest) =
                        s :: List.filter (qualifies options) rest := by
                    simp [List.filter_cons, hq]
                  rw [hfilter, List.map_cons, hbuilt]
                  simp [List.append_assoc]
                · intro s' hs' hq'
                  rcases hs' with _ | hs'
                  · exact ⟨t, fr, hcsv, ⟨inv, hph⟩, cfields, hcf⟩
                  · exact h2 s' (by assumption) hq'
          · rw [if_neg hinc] at h
            have hq : qualifies options s = false := by
              unfold qualifies
              rw [if_neg hline, hcsv]
              dsimp only
              exact Bool.not_eq_true _ ▸ hinc
            obtain ⟨h1, h2⟩ := ih cur acc p h
            refine ⟨by simpa [hq] using h1, ?_⟩
            intro s' hs' hq'
            rcases hs' with _ | hs'
            · rw [hq] at hq'; cases hq'
            · exact h2 s' (by assumption) hq'

theorem parseEPP_ok_parts {content : String} {options : ParseOptions} {d : EPPData}
    (h : ParseEPPFromString content options = .ok d) :
    d.Invoices =
      ((ParseSections content).Sections.filter (qualifies options)).map builtInvoice ∧
    (∀ s ∈ (ParseSections content).Sections, qualifies options s = true → SectionOk s) := by
  simp only [ParseEPPFromString] at h
  cases hinfo : ParseCSVLine (ParseSections content).Info with
  | error e => rw [hinfo] at h; cases h
  | ok fields =>
    rw [hinfo] at h
    cases hps : processSections options (ParseSections content).Sections emptyInvoice [] with
    | panic => rw [hps] at h; cases h
    | error e => rw [hps] at h; cases h
    | ok p =>
      obtain ⟨cur, invs⟩ := p
      rw [hps] at h
      obtain ⟨hmain, heach⟩ := processSections_ok _ _ _ _ hps
      have hd : d = ⟨_, if cur.type ≠ "" then invs ++ [cur] else invs⟩ :=
        (GoResult.ok.inj h).symm
      constructor
      · rw [hd]
        show (if cur.type ≠ "" then invs ++ [cur] else invs) = _
        rw [append_flushPending]
        simpa [flushPending, emptyInvoice] using hmain
      · exact heach

/-! ## Claims C4-C6 -/

/-- C5: whenever `ParseEPPFromString` succeeds, the returned invoice list is
exactly the list of invoices built from the sections that pass the type
filter, in document order - in particular the invoice pending when the
section loop ends (the one built from the last qualifying section) is
appended after the loop and never dropped. -/
theorem parseEPP_invoice_list (content : String) (options : ParseOptions)
    (d : EPPData) (h : ParseEPPFromString content options = .ok d) :
    d.Invoices =
      ((ParseSections content).Sections.filter (qualifies options)).map builtInvoice :=
  (parseEPP_ok_parts h).1

/-- Witness for C5: a document whose single (hence last) qualifying section is
its final section still yields that invoice. -/
theorem parseEPP_invoice_list_witness :
    (({ Info := [],
        Invoices := [{ emptyInvoice with
          type := "FS", Number := "NR1",
          Items := [{ emptyItem with
            VatRate := "23", Quantity := GoFloat.parsed "2",
            NetPrice := GoFloat.parsed "10" }] }] } : EPPData)).Invoices =
      ((ParseSections "[INFO] 1.05\n[NAGLOWEK]\nFS,a,b,c,NR1\n[ZAWARTOSC]\n23,2,10").Sections.filter
        (qualifies DefaultParseOptions)).map builtInvoice :=
  parseEPP_invoice_list "[INFO] 1.05\n[NAGLOWEK]\nFS,a,b,c,NR1\n[ZAWARTOSC]\n23,2,10"
    DefaultParseOptions _ (by rfl)

/-- C4: whenever `ParseEPPFromString` succeeds, every invoice in the returned
document carries exactly one item: the assembler appends exactly one item
(mapped from the section's single tokenized content line) per qualifying
section, no matter how many logical item rows the content encodes. -/
theorem parseEPP_single_item (content : String) (options : ParseOptions)
    (d : EPPData) (h : ParseEPPFromString content options = .ok d) :
    ∀ inv ∈ d.Invoices, inv.Items.length = 1 := by
  intro inv hinv
  obtain ⟨hlist, heach⟩ := parseEPP_ok_parts h
  rw [hlist] at hinv
  obtain ⟨s, hs, rfl⟩ := List.mem_map.mp hinv
  have hmem := (List.mem_filter.mp hs).1
  have hq := (List.mem_filter.mp hs).2
  obtain ⟨t, fr, hcsv, ⟨inv0, hph⟩, cf, hcf⟩ := heach s hmem hq
  have htype : inv0.type = t := parseHeader_type hph
  have hne : inv0.type ≠ "" := by
    rw [htype]
    have hq' := hq
    unfold qualifies at hq'
    by_cases hline : trimSpace s.Header = ""
    · rw [if_pos hline] at hq'; cases hq'
    · rw [if_neg hline, hcsv] at hq'
      exact shouldInclude_ne_empty hq'
  unfold builtInvoice
  rw [hcsv]
  dsimp only
  rw [hph]
  dsimp only
  rw [hcf]
  dsimp only
  rw [if_pos hne]
  simp

/-- Witness for C4: the section content encodes more than 8 comma-separated
groups (11 of them), yet the assembled invoice has exactly one item. -/
theorem parseEPP_single_item_witness :
    (witnessDocSingleItem.Invoices.headD emptyInvoice).Items.length = 1 :=
  parseEPP_single_item
    "[INFO] 1.05\n[NAGLOWEK]\nFZ,x,y,z,NR2\n[ZAWARTOSC]\n23,1,10,2.3,12.3,10,2.3,12.3,8,2,440"
    DefaultParseOptions witnessDocSingleItem (by decide)
    (witnessDocSingleItem.Invoices.headD emptyInvoice) (by decide)

/-- C6: whenever `ParseEPPFromString` succeeds, every invoice in the returned
document's invoice list has a non-empty `Type` field (the assembler's
pending-invoice sentinel). -/
theorem parseEPP_type_nonempty (content : String) (options : ParseOptions)
    (d : EPPData) (h : ParseEPPFromString content options = .ok d) :
    ∀ inv ∈ d.Invoices, inv.type ≠ "" := by
  intro inv hinv
  obtain ⟨hlist, heach⟩ := parseEPP_ok_parts h
  rw [hlist] at hinv
  obtain ⟨s, hs, rfl⟩ := List.mem_map.mp hinv
  have hmem := (List.mem_filter.mp hs).1
  have hq := (List.mem_filter.mp hs).2
  obtain ⟨t, fr, hcsv, ⟨inv0, hph⟩, cf, hcf⟩ := heach s hmem hq
  have htype : inv0.type = t := parseHeader_type hph
  have hne : inv0.type ≠ "" := by
    rw [htype]
    have hq' := hq
    unfold qualifies at hq'
    by_cases hline : trimSpace s.Header = ""
    · rw [if_pos hline] at hq'; cases hq'
    · rw [if_neg hline, hcsv] at hq'
      exact shouldInclude_ne_empty hq'
  unfold builtInvoice
  rw [hcsv]
  dsimp only
  rw [hph]
  dsimp only
  rw [hcf]
  dsimp only
  rw [if_pos hne]
  simpa using hne

/-- Witness for C6 on a two-section document. -/
theorem parseEPP_type_nonempty_witness :
    (witnessDocTypes.Invoices.headD emptyInvoice).type ≠ "" ∧
      (witnessDocTypes.Invoices.getD 1 emptyInvoice).type ≠ "" :=
  ⟨parseEPP_type_nonempty
      "[INFO] 1.05\n[NAGLOWEK]\nFS,q\n[ZAWARTOSC]\n8\n[NAGLOWEK]\nKFZ,r\n[ZAWARTOSC]\n5"
      DefaultParseOptions witnessDocTypes (by decide)
      (witnessDocTypes.Invoices.headD emptyInvoice) (by decide),
    parseEPP_type_nonempty
      "[INFO] 1.05\n[NAGLOWEK]\nFS,q\n[ZAWARTOSC]\n8\n[NAGLOWEK]\nKFZ,r\n[ZAWARTOSC]\n5"
      DefaultParseOptions witnessDocTypes (by decide)
      (witnessDocTypes.Invoices.getD 1 emptyInvoice) (by decide)⟩

/-! ## Claim C10 -/

theorem parseSections_info_empty {input : String}
    (hno : ¬ Occurs infoTag (preambleOf input)) :
    (ParseSections input).Info = "" := by
  unfold ParseSections
  cases hb : splitAll headerTag input.data with
  | nil => rfl
  | cons b rest =>
    dsimp only
    have hpre : preambleOf input = b := by
      unfold preambleOf
      rw [hb]
      rfl
    rw [hpre] at hno
    rw [splitFirst_none_iff.mpr hno]

/-- C10 as amended: `ParseCSVLine` on the empty string returns an error (the
reader sees no record and reports EOF), so an input whose preamble lacks an
`[INFO]` marker always makes `ParseEPPFromString` fail with an error before
any section is processed; and when some section passing the type filter has
empty content, `ParseEPPFromString` returns an error rather than a document -
provided the parse does not abort earlier in the header mapper's
out-of-range category access (result `panic`, see C2), which is the one way
such an input can fail to produce a returned error. -/
theorem parseCSV_empty_error_policy :
    (∃ e, ParseCSVLine "" = Except.error e) ∧
    (∀ (input : String) (options : ParseOptions),
      ¬ Occurs infoTag (preambleOf input) →
      ∃ e, ParseEPPFromString input options = .error e) ∧
    (∀ (input : String) (options : ParseOptions),
      ParseEPPFromString input options ≠ .panic →
      (∃ s, s ∈ (ParseSections input).Sections ∧ qualifies options s = true ∧
        s.Content = "") →
      ∃ e, ParseEPPFromString input options = .error e) := by
  refine ⟨⟨"błąd czytania CSV: EOF", rfl⟩, ?_, ?_⟩
  · intro input options hno
    have hinfo := parseSections_info_empty hno
    refine ⟨"błąd podczas parsowania info: błąd czytania CSV: EOF", ?_⟩
    simp only [ParseEPPFromString, hinfo]
    rfl
  · rintro input options hnp ⟨s, hmem, hq, hc⟩
    cases hres : ParseEPPFromString input options with
    | ok d =>
      exfalso
      obtain ⟨-, heach⟩ := parseEPP_ok_parts hres
      obtain ⟨t, fr, -, -, cf, hcf⟩ := heach s hmem hq
      rw [hc] at hcf
      have hclash : (Except.error "błąd czytania CSV: EOF" : Except String (List String)) =
          Except.ok cf := hcf
      cases hclash
    | error e => exact ⟨e, rfl⟩
    | panic => exact absurd hres hnp

/-- C10, counterexample to the claim as stated: an input whose qualifying
section has empty content but whose header tokenizes to exactly 19 fields
makes `ParseEPPFromString` abort in the category out-of-range panic, so it
returns no error value at all. -/
theorem parseCSV_empty_claim_cex :
    ¬ (∀ (input : String) (options : ParseOptions),
        (∃ s, s ∈ (ParseSections input).Sections ∧ qualifies options s = true ∧
          s.Content = "") →
        ∃ e, ParseEPPFromString input options = .error e) := by
  intro hclaim
  obtain ⟨e, he⟩ :=
    hclaim "[INFO] 1\n[NAGLOWEK]\nFZ,,,,,,,,,,,,,,,,,,\n[ZAWARTOSC]\n"
      DefaultParseOptions
      ⟨⟨"FZ,,,,,,,,,,,,,,,,,,", ""⟩, by decide, by decide, rfl⟩
  have hp : ParseEPPFromString "[INFO] 1\n[NAGLOWEK]\nFZ,,,,,,,,,,,,,,,,,,\n[ZAWARTOSC]\n"
      DefaultParseOptions = .panic := by decide
  rw [hp] at he
  cases he

/-! ## Claim C8 -/

theorem splitFirst_firstSplitAt {pat : List Char} (hp : pat ≠ [])
    {l pre post : List Char} (h : splitFirst pat l = some (pre, post)) :
    FirstSplitAt pat l pre post :=
  ⟨splitFirst_sound h, splitFirst_first hp h⟩

theorem firstSplitAt_unique {pat l pre post pre' post' : List Char}
    (h1 : FirstSplitAt pat l pre post) (h2 : FirstSplitAt pat l pre' post') :
    pre = pre' ∧ post = post' := by
  have hlen : pre.length = pre'.length :=
    Nat.le_antisymm (h1.2 pre' post' h2.1) (h2.2 pre post h1.1)
  have heq : pre ++ (pat ++ post) = pre' ++ (pat ++ post') := by
    rw [← List.append_assoc, ← List.append_assoc, ← h1.1, ← h2.1]
  obtain ⟨hpre, hrest⟩ := List.append_inj heq hlen
  exact ⟨hpre, List.append_cancel_left hrest⟩

/-- C8: `ParseSections` behaves exactly as the spec describes.  With `blocks`
the pieces of the input around each `[NAGLOWEK]` occurrence: (i) rejoining the
blocks restores the input, so the splitter loses no text; (ii) the section
list is the in-order `filterMap` of the blocks after the first, so document
order of marker occurrences is preserved and nothing is reordered; (iii) a
block contributes no section exactly when it holds no `[ZAWARTOSC]` marker;
(iv) a contributed section is the trimmed text before the first `[ZAWARTOSC]`
occurrence paired with the trimmed text after it; (v) the info string is empty
when the preamble holds no `[INFO]` marker and otherwise is the trimmed text
after the first `[INFO]` occurrence in the preamble. -/
theorem parseSections_spec (input : String) :
    joinWith headerTag (splitAll headerTag input.data) = input.data ∧
    (ParseSections input).Sections =
      ((splitAll headerTag input.data).drop 1).filterMap secOf ∧
    (∀ block : List Char, secOf block = none ↔ ¬ Occurs contentTag block) ∧
    (∀ (block hdr cnt : List Char),
      secOf block = some ⟨String.mk hdr, String.mk cnt⟩ →
      ∃ pre post, FirstSplitAt contentTag block pre post ∧
        String.mk hdr = trimSpace (String.mk pre) ∧
        String.mk cnt = trimSpace (String.mk post)) ∧
    (¬ Occurs infoTag (preambleOf input) → (ParseSections input).Info = "") ∧
    (∀ pre post, FirstSplitAt infoTag (preambleOf input) pre post →
      (ParseSections input).Info = trimSpace (String.mk post)) := by
  refine ⟨?_, ?_, ?_, ?_, ?_, ?_⟩
  · exact joinWith_splitAll (by decide) input.data
  · unfold ParseSections
    dsimp only
    have hfold := foldl_sec_append
      ((splitAll headerTag input.data).drop 1) []
    simpa using hfold
  · intro block
    unfold secOf
    cases h : splitFirst contentTag block with
    | none =>
      constructor
      · intro _
        exact splitFirst_none_iff.mp h
      · intro _
        rfl
    | some pr =>
      obtain ⟨pre, post⟩ := pr
      simp only
      constructor
      · intro hc; cases hc
      · intro hno
        exact absurd ⟨pre, post, splitFirst_sound h⟩ hno
  · intro block hdr cnt hsec
    unfold secOf at hsec
    cases h : splitFirst contentTag block with
    | none => rw [h] at hsec; cases hsec
    | some pr =>
      obtain ⟨pre, post⟩ := pr
      rw [h] at hsec
      have hinj := Section.mk.injEq _ _ _ _ ▸ Option.some.inj hsec
      exact ⟨pre, post, splitFirst_firstSplitAt (by decide) h,
        hinj.1.symm, hinj.2.symm⟩
  · exact parseSections_info_empty
  · intro pre post hsplit
    unfold ParseSections
    cases hb : splitAll headerTag input.data with
    | nil => exact absurd hb (splitAll_ne_nil _ _)
    | cons b rest =>
      dsimp only
      have hpre : preambleOf input = b := by
        unfold preambleOf
        rw [hb]
        rfl
      rw [hpre] at hsplit
      cases hf : splitFirst infoTag b with
      | none =>
        exact absurd ⟨pre, post, hsplit.1⟩ (splitFirst_none_iff.mp hf)
      | some pr =>
        obtain ⟨pre', post'⟩ := pr
        have hfs := splitFirst_firstSplitAt (by decide) hf
        obtain ⟨-, hpost⟩ := firstSplitAt_unique hfs hsplit
        rw [hpost]

/-! ## Claim C9 -/

theorem addToGroup_mem_elem :
    ∀ (g : List (String × List Invoice)) (k : String) (y : Invoice)
      (k' : String) (b' : List Invoice) (x : Invoice),
      (k', b') ∈ addToGroup g k y → x ∈ b' →
      (∃ b, (k', b) ∈ g ∧ x ∈ b) ∨ (x = y ∧ k' = k) := by
  intro g
  induction g with
  | nil =>
    intro k y k' b' x hmem hx
    simp [addToGroup] at hmem
    obtain ⟨rfl, rfl⟩ := hmem
    simp at hx
    exact Or.inr ⟨hx, rfl⟩
  | cons e rest ih =>
    obtain ⟨k0, b0⟩ := e
    intro k y k' b' x hmem hx
    unfold addToGroup at hmem
    by_cases hk : k0 = k
    · rw [if_pos hk] at hmem
      rcases List.mem_cons.mp hmem with heq | htail
      · obtain ⟨rfl, rfl⟩ := Prod.mk.injEq _ _ _ _ ▸ heq
        rcases List.mem_append.mp hx with hx0 | hx1
        · exact Or.inl ⟨b0, List.mem_cons_self _ _, hx0⟩
        · simp at hx1
          exact Or.inr ⟨hx1, hk⟩
      · exact Or.inl (by
          rcases (fun b hb hxb => ⟨b, List.mem_cons_of_mem _ hb, hxb⟩ :
            ∀ b, (k', b) ∈ rest → x ∈ b → ∃ b, (k', b) ∈ (k0, b0) :: rest ∧ x ∈ b)
            b' htail hx with h
          exact h)
    · rw [if_neg hk] at hmem
      rcases List.mem_cons.mp hmem with heq | htail
      · obtain ⟨rfl, rfl⟩ := Prod.mk.injEq _ _ _ _ ▸ heq
        exact Or.inl ⟨b', List.mem_cons_self _ _, hx⟩
      · rcases ih k y k' b' x htail hx with ⟨b, hb, hxb⟩ | hr
        · exact Or.inl ⟨b, List.mem_cons_of_mem _ hb, hxb⟩
        · exact Or.inr hr

theorem addToGroup_self :
    ∀ (g : List (String × List Invoice)) (k : String) (y : Invoice),
      ∃ b, (k, b) ∈ addToGroup g k y ∧ y ∈ b := by
  intro g
  induction g with
  | nil =>
    intro k y
    exact ⟨[y], by simp [addToGroup], by simp⟩
  | cons e rest ih =>
    obtain ⟨k0, b0⟩ := e
    intro k y
    unfold addToGroup
    by_cases hk : k0 = k
    · rw [if_pos hk]
      exact ⟨b0 ++ [y], by rw [hk]; exact List.mem_cons_self _ _, by simp⟩
    · rw [if_neg hk]
      obtain ⟨b, hb, hy⟩ := ih k y
      exact ⟨b, List.mem_cons_of_mem _ hb, hy⟩

theorem addToGroup_preserve :
    ∀ (g : List (String × List Invoice)) (k2 : String) (y : Invoice)
      (k : String) (b : List Invoice) (x : Invoice),
      (k, b) ∈ g → x ∈ b →
      ∃ b', (k, b') ∈ addToGroup g k2 y ∧ x ∈ b' := by
  intro g
  induction g with
  | nil =>
    intro k2 y k b x hmem _
    simp at hmem
  | cons e rest ih =>
    obtain ⟨k0, b0⟩ := e
    intro k2 y k b x hmem hx
    unfold addToGroup
    by_cases hk : k0 = k2
    · rw [if_pos hk]
      rcases List.mem_cons.mp hmem with heq | htail
      · obtain ⟨h1, h2⟩ := Prod.mk.injEq _ _ _ _ ▸ heq
        subst h1
        subst h2
        exact ⟨b ++ [y], List.mem_cons_self _ _, List.mem_append.mpr (Or.inl hx)⟩
      · exact ⟨b, List.mem_cons_of_mem _ htail, hx⟩
    · rw [if_neg hk]
      rcases List.mem_cons.mp hmem with heq | htail
      · obtain ⟨h1, h2⟩ := Prod.mk.injEq _ _ _ _ ▸ heq
        subst h1
        subst h2
        exact ⟨b, List.mem_cons_self _ _, hx⟩
      · obtain ⟨b', hb', hx'⟩ := ih k2 y k b x htail hx
        exact ⟨b', List.mem_cons_of_mem _ hb', hx'⟩

theorem addToGroup_keys :
    ∀ (g : List (String × List Invoice)) (k : String) (y : Invoice),
      (addToGroup g k y).map Prod.fst =
        if k ∈ g.map Prod.fst then g.map Prod.fst else g.map Prod.fst ++ [k] := by
  intro g
  induction g with
  | nil => intro k y; simp [addToGroup]
  | cons e rest ih =>
    obtain ⟨k0, b0⟩ := e
    intro k y
    unfold addToGroup
    by_cases hk : k0 = k
    · rw [if_pos hk]
      subst hk
      simp
    · rw [if_neg hk]
      have hne : ¬ (k = k0) := fun h => hk h.symm
      simp only [List.map_cons, List.mem_cons]
      rw [ih k y]
      by_cases hkin : k ∈ rest.map Prod.fst
      · simp [hkin, hne]
      · simp [hkin, hne]

theorem groupStep_zero {g : List (String × List Invoice)} {i : Invoice}
    (hz : i.IssueDate.isZero = true) : groupStep g i = g := by
  unfold groupStep
  rw [hz]
  simp

theorem groupStep_nonzero {g : List (String × List Invoice)} {i : Invoice}
    (hz : i.IssueDate.isZero = false) :
    groupStep g i = addToGroup g (formatYearMonth i.IssueDate) i := by
  unfold groupStep
  rw [hz]
  simp

theorem groupFold_mem_elem :
    ∀ (invs : List Invoice) (g : List (String × List Invoice))
      (k : String) (b : List Invoice) (x : Invoice),
      (k, b) ∈ invs.foldl groupStep g → x ∈ b →
      (∃ b0, (k, b0) ∈ g ∧ x ∈ b0) ∨
        (x ∈ invs ∧ x.IssueDate.isZero = false ∧ k = formatYearMonth x.IssueDate) := by
  intro invs
  induction invs with
  | nil =>
    intro g k b x hmem hx
    exact Or.inl ⟨b, hmem, hx⟩
  | cons i rest ih =>
    intro g k b x hmem hx
    rw [List.foldl_cons] at hmem
    rcases ih (groupStep g i) k b x hmem hx with ⟨b0, hb0, hx0⟩ | hr
    · by_cases hz : i.IssueDate.isZero
      · rw [groupStep_zero hz] at hb0
        exact Or.inl ⟨b0, hb0, hx0⟩
      · rw [Bool.not_eq_true] at hz
        rw [groupStep_nonzero hz] at hb0
        rcases addToGroup_mem_elem g _ i k b0 x hb0 hx0 with ⟨b1, hb1, hx1⟩ | ⟨rfl, rfl⟩
        · exact Or.inl ⟨b1, hb1, hx1⟩
        · exact Or.inr ⟨List.mem_cons_self _ _, hz, rfl⟩
    · exact Or.inr ⟨List.mem_cons_of_mem _ hr.1, hr.2⟩

theorem groupFold_preserve :
    ∀ (invs : List Invoice) (g : List (String × List Invoice))
      (k : String) (b : List Invoice) (x : Invoice),
      (k, b) ∈ g → x ∈ b →
      ∃ b', (k, b') ∈ invs.foldl groupStep g ∧ x ∈ b' := by
  intro invs
  induction invs with
  | nil =>
    intro g k b x hmem hx
    exact ⟨b, hmem, hx⟩
  | cons i rest ih =>
    intro g k b x hmem hx
    rw [List.foldl_cons]
    by_cases hz : i.IssueDate.isZero
    · rw [groupStep_zero hz]
      exact ih g k b x hmem hx
    · rw [Bool.not_eq_true] at hz
      rw [groupStep_nonzero hz]
      obtain ⟨b', hb', hx'⟩ :=
        addToGroup_preserve g (formatYearMonth i.IssueDate) i k b x hmem hx
      exact ih _ k b' x hb' hx'

theorem groupFold_self :
    ∀ (invs : List Invoice) (g : List (String × List Invoice)) (x : Invoice),
      x ∈ invs → x.IssueDate.isZero = false →
      ∃ b, (formatYearMonth x.IssueDate, b) ∈ invs.foldl groupStep g ∧ x ∈ b := by
  intro invs
  induction invs with
  | nil =>
    intro g x hmem _
    simp at hmem
  | cons i rest ih =>
    intro g x hmem hz
    rw [List.foldl_cons]
    rcases List.mem_cons.mp hmem with rfl | htail
    · rw [groupStep_nonzero hz]
      obtain ⟨b, hb, hx⟩ := addToGroup_self g (formatYearMonth x.IssueDate) x
      exact groupFold_preserve rest _ _ b x hb hx
    · exact ih _ x htail hz

theorem groupFold_keys_nodup :
    ∀ (invs : List Invoice) (g : List (String × List Invoice)),
      (g.map Prod.fst).Nodup → ((invs.foldl groupStep g).map Prod.fst).Nodup := by
  intro invs
  induction invs with
  | nil => intro g h; exact h
  | cons i rest ih =>
    intro g h
    rw [List.foldl_cons]
    apply ih
    by_cases hz : i.IssueDate.isZero
    · rw [groupStep_zero hz]
      exact h
    · rw [Bool.not_eq_true] at hz
      rw [groupStep_nonzero hz]
      rw [addToGroup_keys]
      by_cases hkin : formatYearMonth i.IssueDate ∈ g.map Prod.fst
      · rw [if_pos hkin]; exact h
      · rw [if_neg hkin]
        refine List.Nodup.append h (List.nodup_singleton _) ?_
        intro a ha hb
        simp only [List.mem_singleton] at hb
        subst hb
        exact hkin ha

/-- C9: `GroupInvoicesByMonth` places each invoice whose issue date is not the
zero timestamp into exactly one bucket - the bucket keyed by the `YYYY-MM`
rendering of its issue date: (i) any invoice found in a bucket came from the
input list, has a non-zero issue date, and the bucket's key is its rendered
year-month; (ii) every input invoice with a non-zero issue date is in the
bucket carrying its key; (iii) the bucket keys are pairwise distinct, so that
bucket is unique; and invoices with the zero issue date are in no bucket at
all (by (i)). -/
theorem groupInvoicesByMonth_buckets (invoices : List Invoice) (inv : Invoice) :
    (∀ k b, (k, b) ∈ GroupInvoicesByMonth invoices → inv ∈ b →
      inv.IssueDate.isZero = false ∧ k = formatYearMonth inv.IssueDate) ∧
    (inv ∈ invoices → inv.IssueDate.isZero = false →
      ∃ b, (formatYearMonth inv.IssueDate, b) ∈ GroupInvoicesByMonth invoices ∧
        inv ∈ b) ∧
    ((GroupInvoicesByMonth invoices).map Prod.fst).Nodup := by
  refine ⟨?_, ?_, ?_⟩
  · intro k b hmem hx
    rcases groupFold_mem_elem invoices [] k b inv hmem hx with ⟨b0, hb0, -⟩ | hr
    · simp at hb0
    · exact ⟨hr.2.1, hr.2.2⟩
  · intro hmem hz
    exact groupFold_self invoices [] inv hmem hz
  · exact groupFold_keys_nodup invoices [] (by simp)

/-! ## Claim C7 -/

theorem natOfDigits_two (a b : Char) :
    natOfDigits [a, b] = digitVal a * 10 + digitVal b := by
  simp [natOfDigits]

theorem natOfDigits_four (a b c d : Char) :
    natOfDigits [a, b, c, d] =
      ((digitVal a * 10 + digitVal b) * 10 + digitVal c) * 10 + digitVal d := by
  simp [natOfDigits]

theorem getnum2_some {cs : List Char} {n : Nat} {r : List Char}
    (h : getnum2 cs = some (n, r)) :
    ∃ c1 c2, cs = c1 :: c2 :: r ∧ c1.isDigit ∧ c2.isDigit ∧
      n = digitVal c1 * 10 + digitVal c2 := by
  rcases cs with - | ⟨c1, cs⟩
  · simp [getnum2] at h
  rcases cs with - | ⟨c2, rest⟩
  · simp [getnum2] at h
  unfold getnum2 at h
  dsimp only at h
  by_cases hd : (c1.isDigit && c2.isDigit)
  · rw [if_pos hd] at h
    obtain ⟨hn, hr⟩ := Prod.mk.injEq _ _ _ _ ▸ Option.some.inj h
    simp only [Bool.and_eq_true] at hd
    exact ⟨c1, c2, by rw [hr], hd.1, hd.2, hn.symm⟩
  · rw [if_neg hd] at h
    cases h

theorem getnum4_some {cs : List Char} {n : Nat} {r : List Char}
    (h : getnum4 cs = some (n, r)) :
    ∃ c1 c2 c3 c4, cs = c1 :: c2 :: c3 :: c4 :: r ∧
      c1.isDigit ∧ c2.isDigit ∧ c3.isDigit ∧ c4.isDigit ∧
      n = ((digitVal c1 * 10 + digitVal c2) * 10 + digitVal c3) * 10 + digitVal c4 := by
  rcases cs with - | ⟨c1, cs⟩
  · simp [getnum4] at h
  rcases cs with - | ⟨c2, cs⟩
  · simp [getnum4] at h
  rcases cs with - | ⟨c3, cs⟩
  · simp [getnum4] at h
  rcases cs with - | ⟨c4, rest⟩
  · simp [getnum4] at h
  unfold getnum4 at h
  dsimp only at h
  by_cases hd : (c1.isDigit && c2.isDigit && c3.isDigit && c4.isDigit)
  · rw [if_pos hd] at h
    obtain ⟨hn, hr⟩ := Prod.mk.injEq _ _ _ _ ▸ Option.some.inj h
    simp only [Bool.and_eq_true] at hd
    exact ⟨c1, c2, c3, c4, by rw [hr], hd.1.1.1, hd.1.1.2, hd.1.2, hd.2, hn.symm⟩
  · rw [if_neg hd] at h
    cases h

theorem getnum2_digits {c1 c2 : Char} (h1 : c1.isDigit = true)
    (h2 : c2.isDigit = true) (r : List Char) :
    getnum2 (c1 :: c2 :: r) = some (digitVal c1 * 10 + digitVal c2, r) := by
  unfold getnum2
  dsimp only
  rw [if_pos (by simp [h1, h2])]

theorem getnum4_digits {c1 c2 c3 c4 : Char} (h1 : c1.isDigit = true)
    (h2 : c2.isDigit = true) (h3 : c3.isDigit = true) (h4 : c4.isDigit = true)
    (r : List Char) :
    getnum4 (c1 :: c2 :: c3 :: c4 :: r) =
      some (((digitVal c1 * 10 + digitVal c2) * 10 + digitVal c3) * 10 + digitVal c4, r) := by
  unfold getnum4
  dsimp only
  rw [if_pos (by simp [h1, h2, h3, h4])]

theorem goTimeParse_sound {s : String} {t : GoTime}
    (h : goTimeParse s = some t) :
    s.length = 14 ∧ ValidYmdhms s ∧ t = ymdhmsOf s := by
  unfold goTimeParse at h
  cases h4 : getnum4 s.data with
  | none => rw [h4] at h; cases h
  | some p4 =>
    obtain ⟨y, r1⟩ := p4
    rw [h4] at h
    dsimp only at h
    cases h5 : getnum2 r1 with
    | none => rw [h5] at h; cases h
    | some p5 =>
      obtain ⟨mo, r2⟩ := p5
      rw [h5] at h
      dsimp only at h
      cases h6 : getnum2 r2 with
      | none => rw [h6] at h; cases h
      | some p6 =>
        obtain ⟨d, r3⟩ := p6
        rw [h6] at h
        dsimp only at h
        cases h7 : getnum2 r3 with
        | none => rw [h7] at h; cases h
        | some p7 =>
          obtain ⟨hh, r4⟩ := p7
          rw [h7] at h
          dsimp only at h
          by_cases h24 : 24 ≤ hh
          · rw [if_pos h24] at h; cases h
          rw [if_neg h24] at h
          cases h8 : getnum2 r4 with
          | none => rw [h8] at h; cases h
          | some p8 =>
            obtain ⟨mi, r5⟩ := p8
            rw [h8] at h
            dsimp only at h
            by_cases h60 : 60 ≤ mi
            · rw [if_pos h60] at h; cases h
            rw [if_neg h60] at h
            cases h9 : getnum2 r5 with
            | none => rw [h9] at h; cases h
            | some p9 =>
              obtain ⟨sec, r6⟩ := p9
              rw [h9] at h
              dsimp only at h
              by_cases h61 : 60 ≤ sec
              · rw [if_pos h61] at h; cases h
              rw [if_neg h61] at h
              by_cases hr6 : r6 ≠ []
              · rw [if_pos hr6] at h; cases h
              rw [if_neg hr6] at h
              by_cases hmo : mo < 1 ∨ 12 < mo
              · rw [if_pos hmo] at h; cases h
              rw [if_neg hmo] at h
              by_cases hd : d < 1 ∨ daysIn mo y < d
              · rw [if_pos hd] at h; cases h
              rw [if_neg hd] at h
              have ht := (Option.some.inj h).symm
              rw [Decidable.not_not] at hr6
              obtain ⟨c1, c2, c3, c4, he1, d1, d2, d3, d4, hy⟩ := getnum4_some h4
              obtain ⟨c5, c6, he2, d5, d6, hmo2⟩ := getnum2_some h5
              obtain ⟨c7, c8, he3, d7, d8, hd2⟩ := getnum2_some h6
              obtain ⟨c9, c10, he4, d9, d10, hh2⟩ := getnum2_some h7
              obtain ⟨c11, c12, he5, d11, d12, hmi2⟩ := getnum2_some h8
              obtain ⟨c13, c14, he6, d13, d14, hsec2⟩ := getnum2_some h9
              subst hr6
              rw [he6] at he5
              rw [he5] at he4
              rw [he4] at he3
              rw [he3] at he2
              rw [he2] at he1
              have hdata :
                  s.data = [c1, c2, c3, c4, c5, c6, c7, c8, c9, c10, c11, c12, c13, c14] :=
                he1
              have hlen : s.length = 14 := by
                show s.data.length = 14
                rw [hdata]
                rfl
              have hf04 : fieldNat s 0 4 = y := by
                unfold fieldNat
                rw [hdata, hy]
                simpa using (natOfDigits_four c1 c2 c3 c4)
              have hf42 : fieldNat s 4 2 = mo := by
                unfold fieldNat
                rw [hdata, hmo2]
                simpa using (natOfDigits_two c5 c6)
              have hf62 : fieldNat s 6 2 = d := by
                unfold fieldNat
                rw [hdata, hd2]
                simpa using (natOfDigits_two c7 c8)
              have hf82 : fieldNat s 8 2 = hh := by
                unfold fieldNat
                rw [hdata, hh2]
                simpa using (natOfDigits_two c9 c10)
              have hf102 : fieldNat s 10 2 = mi := by
                unfold fieldNat
                rw [hdata, hmi2]
                simpa using (natOfDigits_two c11 c12)
              have hf122 : fieldNat s 12 2 = sec := by
                unfold fieldNat
                rw [hdata, hsec2]
                simpa using (natOfDigits_two c13 c14)
              refine ⟨hlen, ⟨?_, ?_, ?_, ?_, ?_, ?_, ?_, ?_⟩, ?_⟩
              · intro c hc
                rw [hdata] at hc
                simp only [List.mem_cons, List.not_mem_nil, or_false] at hc
                rcases hc with rfl | rfl | rfl | rfl | rfl | rfl | rfl | rfl |
                  rfl | rfl | rfl | rfl | rfl | rfl <;> assumption
              · rw [hf42]; omega
              · rw [hf42]; omega
              · rw [hf62]; omega
              · rw [hf62, hf42, hf04]; omega
              · rw [hf82]; omega
              · rw [hf102]; omega
              · rw [hf122]; omega
              · rw [ht]
                unfold ymdhmsOf
                rw [hf04, hf42, hf62, hf82, hf102, hf122]

theorem goTimeParse_complete {s : String} (hlen : s.length = 14)
    (hv : ValidYmdhms s) : goTimeParse s = some (ymdhmsOf s) := by
  obtain ⟨hd, hmo1, hmo2, hd1, hd2, hh1, hmi1, hsec1⟩ := hv
  have hlen' : s.data.length = 14 := hlen
  rcases s with ⟨l⟩
  rcases l with - | ⟨c1, l⟩; · simp at hlen'
  rcases l with - | ⟨c2, l⟩; · simp at hlen'
  rcases l with - | ⟨c3, l⟩; · simp at hlen'
  rcases l with - | ⟨c4, l⟩; · simp at hlen'
  rcases l with - | ⟨c5, l⟩; · simp at hlen'
  rcases l with - | ⟨c6, l⟩; · simp at hlen'
  rcases l with - | ⟨c7, l⟩; · simp at hlen'
  rcases l with - | ⟨c8, l⟩; · simp at hlen'
  rcases l with - | ⟨c9, l⟩; · simp at hlen'
  rcases l with - | ⟨c10, l⟩; · simp at hlen'
  rcases l with - | ⟨c11, l⟩; · simp at hlen'
  rcases l with - | ⟨c12, l⟩; · simp at hlen'
  rcases l with - | ⟨c13, l⟩; · simp at hlen'
  rcases l with - | ⟨c14, l⟩; · simp at hlen'
  rcases l with - | ⟨c15, l⟩
  case cons => simp at hlen'
  have hdig : ∀ c ∈ (String.mk [c1, c2, c3, c4, c5, c6, c7, c8, c9, c10, c11,
      c12, c13, c14]).data, c.isDigit := hd
  simp only [List.mem_cons, List.not_mem_nil, or_false, forall_eq_or_imp,
    forall_eq] at hdig
  obtain ⟨e1, e2, e3, e4, e5, e6, e7, e8, e9, e10, e11, e12, e13, e14⟩ := hdig
  unfold goTimeParse
  show (match getnum4 [c1, c2, c3, c4, c5, c6, c7, c8, c9, c10, c11, c12, c13, c14] with
    | none => none
    | some (y, r1) => _) = _
  rw [getnum4_digits e1 e2 e3 e4]
  dsimp only
  rw [getnum2_digits e5 e6]
  dsimp only
  rw [getnum2_digits e7 e8]
  dsimp only
  rw [getnum2_digits e9 e10]
  dsimp only
  have hf04 : fieldNat (String.mk [c1, c2, c3, c4, c5, c6, c7, c8, c9, c10,
      c11, c12, c13, c14]) 0 4 =
      ((digitVal c1 * 10 + digitVal c2) * 10 + digitVal c3) * 10 + digitVal c4 := by
    unfold fieldNat
    simpa using (natOfDigits_four c1 c2 c3 c4)
  have hf42 : fieldNat (String.mk [c1, c2, c3, c4, c5, c6, c7, c8, c9, c10,
      c11, c12, c13, c14]) 4 2 = digitVal c5 * 10 + digitVal c6 := by
    unfold fieldNat
    simpa using (natOfDigits_two c5 c6)
  have hf62 : fieldNat (String.mk [c1, c2, c3, c4, c5, c6, c7, c8, c9, c10,
      c11, c12, c13, c14]) 6 2 = digitVal c7 * 10 + digitVal c8 := by
    unfold fieldNat
    simpa using (natOfDigits_two c7 c8)
  have hf82 : fieldNat (String.mk [c1, c2, c3, c4, c5, c6, c7, c8, c9, c10,
      c11, c12, c13, c14]) 8 2 = digitVal c9 * 10 + digitVal c10 := by
    unfold fieldNat
    simpa using (natOfDigits_two c9 c10)
  have hf102 : fieldNat (String.mk [c1, c2, c3, c4, c5, c6, c7, c8, c9, c10,
      c11, c12, c13, c14]) 10 2 = digitVal c11 * 10 + digitVal c12 := by
    unfold fieldNat
    simpa using (natOfDigits_two c11 c12)
  have hf122 : fieldNat (String.mk [c1, c2, c3, c4, c5, c6, c7, c8, c9, c10,
      c11, c12, c13, c14]) 12 2 = digitVal c13 * 10 + digitVal c14 := by
    unfold fieldNat
    simpa using (natOfDigits_two c13 c14)
  rw [hf82] at hh1
  rw [if_neg (by omega)]
  rw [getnum2_digits e11 e12]
  dsimp only
  rw [hf102] at hmi1
  rw [if_neg (by omega)]
  rw [getnum2_digits e13 e14]
  dsimp only
  rw [hf122] at hsec1
  rw [if_neg (by omega)]
  rw [if_neg (by simp)]
  rw [hf42] at hmo1 hmo2
  rw [if_neg (by omega)]
  rw [hf62] at hd1
  rw [hf62, hf42, hf04] at hd2
  rw [if_neg (by omega)]
  unfold ymdhmsOf
  rw [hf04, hf42, hf62, hf82, hf102, hf122]

/-- C7: `ParseDate` equals the specification parser: a string of length
exactly 14 that is a valid `YYYYMMDDHHMMSS` calendar timestamp yields that
timestamp, and every other input (wrong length, or 14 characters that are not
a valid timestamp) yields the zero timestamp; being a total function it never
signals an error.  In particular `"20230615143000"` parses to
2023-06-15 14:30:00 while `"abc"` and the 13-character `"2023061514300"`
yield the zero timestamp. -/
theorem parseDate_spec :
    (∀ s : String, ParseDate s = specParseDate s) ∧
    ParseDate "20230615143000" = ⟨2023, 6, 15, 14, 30, 0⟩ ∧
    ParseDate "abc" = GoTime.zero ∧
    ParseDate "2023061514300" = GoTime.zero := by
  refine ⟨?_, by decide, by decide, by decide⟩
  intro s
  unfold ParseDate specParseDate
  by_cases hlen : s.length = 14
  · rw [if_pos hlen]
    by_cases hv : ValidYmdhms s
    · rw [if_pos ⟨hlen, hv⟩, goTimeParse_complete hlen hv]
    · rw [if_neg (fun hc => hv hc.2)]
      cases hg : goTimeParse s with
      | none => rfl
      | some t => exact absurd (goTimeParse_sound hg).2.1 hv
  · rw [if_neg hlen, if_neg (fun hc => hlen hc.1)]

end Epp2Json
